import Mathlib

/-!
Verification development for the drainage-basin-builder repository.

Shallow embedding conventions:
* `Cell` models `worley_particle::Particle` as an opaque identity (a natural
  number).  Site coordinates, Voronoi neighbor lists, Voronoi cell areas,
  site distances and the tessellation scale are supplied by the external
  tessellation engine; we model them as the fields of a `Geom` record.
* `f64` arithmetic is modelled by exact rationals (`ℚ`).  The `f64::sqrt`
  used for river widths and the numeric bezier projection of `bezier_rs`
  are external numeric routines and are passed in as function parameters.
* A `ParticleMap<T>` is modelled as an association list `Field T` with
  distinct keys; iteration follows list order.
-/

namespace DBB

abbrev Cell := ℕ

/-- External tessellation data consumed by the core (worley_particle). -/
structure Geom where
  neighbors : Cell → List Cell
  area : Cell → ℚ
  site : Cell → ℚ × ℚ
  dist : Cell → Cell → ℚ
  scale : ℚ

/-- Model of `ParticleMap<α>`: an association list keyed by cells. -/
abbrev Field (α : Type) := List (Cell × α)

/-- Model of `ParticleMap::get`. -/
def assoc {α : Type} (c : Cell) : Field α → Option α
  | [] => none
  | p :: ps => if p.1 = c then some p.2 else assoc c ps

/-- The keys of a field, in iteration order. -/
def fkeys {α : Type} (m : Field α) : List Cell := m.map Prod.fst

/-- `struct InternalNode` of lib.rs. -/
structure InternalNode where
  area : ℚ
  flow_to : Cell
  slope : ℚ
deriving DecidableEq, Repr

/-- A quadratic bezier curve as produced by `Bezier::from_quadratic_coordinates`:
start point, quadratic handle, end point. -/
structure QBez where
  start : ℚ × ℚ
  handle : ℚ × ℚ
  stop : ℚ × ℚ
deriving DecidableEq, Repr

/-- `enum Stream` of lib.rs. -/
inductive Stream where
  | path (b : QBez)
  | point (p : ℚ × ℚ)
deriving DecidableEq, Repr

/-- `Stream::new`: midpoint-to-midpoint quadratic through the middle site,
with the coincident-site degenerate point fallback. -/
def streamNew (site_0 site_1 site_2 : ℚ × ℚ) : Stream :=
  let path_start := ((site_0.1 + site_1.1) / 2, (site_0.2 + site_1.2) / 2)
  if site_0 = site_1 then Stream.point site_0
  else
    let path_end := ((site_1.1 + site_2.1) / 2, (site_1.2 + site_2.2) / 2)
    Stream.path ⟨path_start, site_1, path_end⟩

/-- Quadratic bezier evaluation at parameter `t` (the bezier_rs formula). -/
def QBez.eval (b : QBez) (t : ℚ) : ℚ × ℚ :=
  ((1 - t) ^ 2 * b.start.1 + 2 * (1 - t) * t * b.handle.1 + t ^ 2 * b.stop.1,
   (1 - t) ^ 2 * b.start.2 + 2 * (1 - t) * t * b.handle.2 + t ^ 2 * b.stop.2)

/-- `Stream::evaluate`. -/
def Stream.evaluate : Stream → ℚ → ℚ × ℚ
  | Stream.path b, t => b.eval t
  | Stream.point p, _ => p

/-- `Stream::collides`.  `project` models the external numeric
nearest-parameter projection `bezier_rs::Bezier::project`. -/
def Stream.collides (project : QBez → ℚ × ℚ → ℚ) :
    Stream → ℚ → ℚ → ℚ → Bool
  | Stream.path b, x, y, width =>
    let t := project b (x, y)
    let p := b.eval t
    decide ((p.1 - x) ^ 2 + (p.2 - y) ^ 2 < width ^ 2)
  | Stream.point p, x, y, width =>
    decide ((p.1 - x) ^ 2 + (p.2 - y) ^ 2 < width ^ 2)

/-- `struct DrainageBasinNode` of lib.rs. -/
structure DrainageBasinNode where
  particle : Cell
  area : ℚ
  drainage_area : ℚ
  slope : ℚ
  flow_to : Cell
  main_river : Stream
deriving DecidableEq, Repr

/-- `DrainageBasinNode::river_width`. `sqrtF` models `f64::sqrt`. -/
def riverWidth (sqrtF : ℚ → ℚ) (scale : ℚ) (n : DrainageBasinNode)
    (strength : ℚ) : ℚ :=
  sqrtF n.drainage_area * strength * scale

/-! ## Flow router (the per-cell loop of `build_drainage_basin`) -/

/-- One iteration of the neighbor loop: the running state is
`(flow_to, steepest_slope)`. -/
def routeStep (g : Geom) (terrain : Field ℚ) (c : Cell) (elev : ℚ)
    (acc : Option Cell × ℚ) (neighbor : Cell) : Option Cell × ℚ :=
  match assoc neighbor terrain with
  | none => acc
  | some nelev =>
    if nelev > elev then acc
    else
      let slope := (nelev - elev) / g.dist c neighbor
      match acc.1 with
      | some _ => if slope > acc.2 then (some neighbor, slope) else acc
      | none => (some neighbor, slope)

/-- The flow router for one cell. -/
def routeCell (g : Geom) (terrain : Field ℚ) (c : Cell) (elev : ℚ) :
    InternalNode :=
  let st := (g.neighbors c).foldl (routeStep g terrain c elev) (none, 0)
  match st.1 with
  | some f => ⟨g.area c, f, st.2⟩
  | none => ⟨g.area c, c, 0⟩

/-- The flow router over the whole terrain map. -/
def routeAll (g : Geom) (terrain : Field ℚ) : Field InternalNode :=
  terrain.map (fun p => (p.1, routeCell g terrain p.1 p.2))

/-! ## Area accumulator -/

/-- Total lookup of an internal node; flow targets selected by the router are
always present, so the default is never read on router output. -/
def getNode (nodes : Field InternalNode) (c : Cell) : InternalNode :=
  (assoc c nodes).getD ⟨0, c, 0⟩

def flowOf (nodes : Field InternalNode) (c : Cell) : Cell :=
  (getNode nodes c).flow_to

def areaOf (nodes : Field InternalNode) (c : Cell) : ℚ :=
  (getNode nodes c).area

/-- `parent_num` after the counting loop: the number of nodes flowing into
`c` (a sink counts itself). -/
def pn0 (nodes : Field InternalNode) (c : Cell) : ℕ :=
  (nodes.filter (fun p => p.2.flow_to = c)).length

/-- Functional update of the drainage-area table. -/
def updOpt (f : Cell → Option ℚ) (c : Cell) (q : ℚ) : Cell → Option ℚ :=
  fun x => if x = c then some q else f x

/-- Functional update of the parent-count table. -/
def updNat (f : Cell → ℕ) (c : Cell) (n : ℕ) : Cell → ℕ :=
  fun x => if x = c then n else f x

/-- The inner `loop` of the accumulation pass.  The Rust loop is unbounded;
under the acyclic precondition it performs at most one step per cell, so a
fuel of the cell count reproduces it exactly (`walk_spec`). -/
def walk (nodes : Field InternalNode) :
    ℕ → (Cell → ℕ) → (Cell → Option ℚ) → Cell → (Cell → ℕ) × (Cell → Option ℚ)
  | 0, pn, da, _ => (pn, da)
  | fuel + 1, pn, da, current =>
    let node := getNode nodes current
    let da1 := updOpt da current ((da current).getD 0 + node.area)
    if node.flow_to = current then (pn, da1)
    else
      let cda := (da1 current).getD 0
      let da2 := updOpt da1 node.flow_to ((da1 node.flow_to).getD 0 + cda)
      if pn node.flow_to > 1 then (updNat pn node.flow_to (pn node.flow_to - 1), da2)
      else walk nodes fuel pn da2 node.flow_to

/-- The accumulation pass: seed a walk from every cell that has no parent.
`contains_key` on the parent map is `≠ 0` on the count table, faithful
because counts are only decremented when above one. -/
def accumulate (nodes : Field InternalNode) :
    (Cell → ℕ) × (Cell → Option ℚ) :=
  nodes.foldl
    (fun st p => if st.1 p.1 ≠ 0 then st else walk nodes nodes.length st.1 st.2 p.1)
    (pn0 nodes, fun _ => none)

/-! ## River paths and assembly -/

/-- The `river_paths` map: every non-sink cell gets a stream through its two
downstream sites. -/
def riverPaths (g : Geom) (nodes : Field InternalNode) : Field Stream :=
  nodes.filterMap (fun p =>
    if p.2.flow_to = p.1 then none
    else
      some (p.1, streamNew (g.site p.1) (g.site p.2.flow_to)
        (g.site (flowOf nodes p.2.flow_to))))

/-- The final record assembly of `build_drainage_basin`: a cell is kept only
if it has both an accumulated drainage area and a river path. -/
def assemble (g : Geom) (nodes : Field InternalNode) : Field DrainageBasinNode :=
  let da := (accumulate nodes).2
  let rp := riverPaths g nodes
  nodes.filterMap (fun p =>
    match da p.1, assoc p.1 rp with
    | some dav, some river =>
      some (p.1, ⟨p.1, p.2.area, dav, p.2.slope, p.2.flow_to, river⟩)
    | _, _ => none)

/-- `build_drainage_basin`. -/
def buildDrainageBasin (g : Geom) (terrain : Field ℚ) : Field DrainageBasinNode :=
  assemble g (routeAll g terrain)

/-! ## Drainage map (map.rs) -/

structure DrainageMap where
  particle_map : Field DrainageBasinNode
  river_strength : ℚ
  river_ignoreable_width_strength : ℚ

def DrainageMap.fromElevationMap (g : Geom) (elevation_map : Field ℚ)
    (river_strength river_ignoreable_width_strength : ℚ) : DrainageMap :=
  ⟨buildDrainageBasin g elevation_map, river_strength,
    river_ignoreable_width_strength⟩

def DrainageMap.riverIgnoreableWidth (g : Geom) (m : DrainageMap) : ℚ :=
  m.river_ignoreable_width_strength * g.scale

/-- `DrainageMap::collides_with_river`.  `inRadius` models the external
spatial query `Particle::from_inside_radius`; `sqrtF` models `f64::sqrt`;
`project` models the bezier projection. -/
def DrainageMap.collidesWithRiver (g : Geom) (sqrtF : ℚ → ℚ)
    (project : QBez → ℚ × ℚ → ℚ) (inRadius : ℚ → ℚ → ℚ → List Cell)
    (m : DrainageMap) (x y : ℚ) : Bool :=
  let radius := g.scale * 2
  let binding := inRadius x y radius
  let particles := binding.filterMap (fun particle => assoc particle m.particle_map)
  particles.any (fun node =>
    let river_width := riverWidth sqrtF g.scale node m.river_strength
    if river_width < m.riverIgnoreableWidth g then false
    else node.main_river.collides project x y river_width)

/-! ## Persisted record tokens (`ParticleMapAttributeRW`)

A persisted record is a run of delimited text tokens.  A token is either the
tag `"Path"`, the tag `"Point"`, a blank padding token, a token that parses
as a number, a token that parses as an integer (cell-identity coordinates),
or other unparsable text. -/

inductive Tok where
  | pathTag
  | pointTag
  | blank
  | num (q : ℚ)
  | int (n : ℕ)
  | other
deriving DecidableEq, Repr

/-- Failures of a load: an unparsable field (an error return), or an
out-of-bounds token access (a Rust slice/index panic). -/
inductive LoadErr where
  | numeric
  | oob
deriving DecidableEq, Repr

/-- `str::parse::<f64>` on one token. -/
def parseNum : Tok → Option ℚ
  | Tok.num q => some q
  | _ => none

/-- Integer parse used by the cell-identity codec. -/
def parseInt : Tok → Option ℕ
  | Tok.int n => some n
  | _ => none

/-- Fetch token `i` and parse it as a number; a missing token is a panic. -/
def getNum (s : List Tok) (i : ℕ) : Except LoadErr ℚ :=
  match s.get? i with
  | none => Except.error LoadErr.oob
  | some t =>
    match parseNum t with
    | none => Except.error LoadErr.numeric
    | some q => Except.ok q

/-- Modelled from the spec: the cell-identity encoding of the external
`Particle` codec (`Particle::len_strs` and its `from_strs`/`to_strings` are
in the worley_particle crate).  We encode the opaque cell identity as one
integer token. -/
def particleLenStrs : ℕ := 1

def particleToStrings (c : Cell) : List Tok := [Tok.int c]

def particleFromStrs (s : List Tok) : Except LoadErr Cell :=
  match s.get? 0 with
  | none => Except.error LoadErr.oob
  | some t =>
    match parseInt t with
    | none => Except.error LoadErr.numeric
    | some n => Except.ok n

/-- `<Stream as ParticleMapAttributeRW>::len_strs`. -/
def streamLenStrs : ℕ := 7

/-- `<Stream as ParticleMapAttributeRW>::to_strings`. -/
def streamToStrings : Stream → List Tok
  | Stream.path b =>
    [Tok.pathTag, Tok.num b.start.1, Tok.num b.start.2, Tok.num b.handle.1,
      Tok.num b.handle.2, Tok.num b.stop.1, Tok.num b.stop.2]
  | Stream.point p =>
    [Tok.pointTag, Tok.num p.1, Tok.num p.2, Tok.blank, Tok.blank, Tok.blank,
      Tok.blank]

/-- `<Stream as ParticleMapAttributeRW>::from_strs`: the `"Path"` tag selects
the curve variant; ANY other first token falls into the point branch. -/
def streamFromStrs (s : List Tok) : Except LoadErr Stream :=
  match s.get? 0 with
  | none => Except.error LoadErr.oob
  | some t =>
    if t = Tok.pathTag then
      match getNum s 1 with
      | Except.error e => Except.error e
      | Except.ok x1 =>
      match getNum s 2 with
      | Except.error e => Except.error e
      | Except.ok y1 =>
      match getNum s 3 with
      | Except.error e => Except.error e
      | Except.ok x2 =>
      match getNum s 4 with
      | Except.error e => Except.error e
      | Except.ok y2 =>
      match getNum s 5 with
      | Except.error e => Except.error e
      | Except.ok x3 =>
      match getNum s 6 with
      | Except.error e => Except.error e
      | Except.ok y3 => Except.ok (Stream.path ⟨(x1, y1), (x2, y2), (x3, y3)⟩)
    else
      match getNum s 1 with
      | Except.error e => Except.error e
      | Except.ok x =>
      match getNum s 2 with
      | Except.error e => Except.error e
      | Except.ok y => Except.ok (Stream.point (x, y))

/-- `<DrainageBasinNode as ParticleMapAttributeRW>::len_strs`. -/
def nodeLenStrs : ℕ := particleLenStrs + particleLenStrs + streamLenStrs + 3

/-- `<DrainageBasinNode as ParticleMapAttributeRW>::to_strings`. -/
def nodeToStrings (n : DrainageBasinNode) : List Tok :=
  particleToStrings n.particle ++ particleToStrings n.flow_to ++
    streamToStrings n.main_river ++
    [Tok.num n.area, Tok.num n.drainage_area, Tok.num n.slope]

/-- `<DrainageBasinNode as ParticleMapAttributeRW>::from_strs`. -/
def nodeFromStrs (s : List Tok) : Except LoadErr DrainageBasinNode :=
  match particleFromStrs (s.take particleLenStrs) with
  | Except.error e => Except.error e
  | Except.ok particle =>
  match particleFromStrs ((s.drop particleLenStrs).take particleLenStrs) with
  | Except.error e => Except.error e
  | Except.ok flow_to =>
  match streamFromStrs ((s.drop (particleLenStrs * 2)).take streamLenStrs) with
  | Except.error e => Except.error e
  | Except.ok main_river =>
  match getNum s (particleLenStrs * 2 + streamLenStrs) with
  | Except.error e => Except.error e
  | Except.ok area =>
  match getNum s (particleLenStrs * 2 + streamLenStrs + 1) with
  | Except.error e => Except.error e
  | Except.ok drainage_area =>
  match getNum s (particleLenStrs * 2 + streamLenStrs + 2) with
  | Except.error e => Except.error e
  | Except.ok slope =>
    Except.ok ⟨particle, area, drainage_area, slope, flow_to, main_river⟩

/-! ## Flatness map (flatness.rs) -/

/-- `build_flatness_map`.  `grad` models the external
`ParticleMap::get_gradient` estimate at a site (central difference with IDW
interpolation, step = cell scale); it returns `none` where the estimate is
undefined. -/
def buildFlatnessMap (g : Geom) (grad : ℚ × ℚ → Option ℚ)
    (elevation_map : Field ℚ) (minimum_neighbor_num : ℕ) (sea_level : ℚ)
    (gradient_to_flatness : ℚ → Option ℚ) : Field ℚ :=
  let flatness_map := elevation_map.filterMap (fun p =>
    if p.2 < sea_level then none
    else
      match grad (g.site p.1) with
      | none => none
      | some gv =>
        match gradient_to_flatness gv with
        | none => none
        | some habitability => some (p.1, habitability))
  if minimum_neighbor_num > 0 then
    flatness_map.filter (fun p =>
      ((g.neighbors p.1).filter
        (fun neighbor => (assoc neighbor flatness_map).isSome)).length
        ≥ minimum_neighbor_num)
  else flatness_map

/-- The first pass of `build_flatness_map` (the `filter_map` collect),
before the optional neighbor re-filter. -/
def flatFirstPass (g : Geom) (grad : ℚ × ℚ → Option ℚ)
    (elevation_map : Field ℚ) (sea_level : ℚ)
    (gradient_to_flatness : ℚ → Option ℚ) : Field ℚ :=
  elevation_map.filterMap (fun p =>
    if p.2 < sea_level then none
    else
      match grad (g.site p.1) with
      | none => none
      | some gv =>
        match gradient_to_flatness gv with
        | none => none
        | some habitability => some (p.1, habitability))

/-- The retention condition of the first pass, as a predicate on a cell:
elevation present and at or above sea level, gradient defined, flatness
function defined on it. -/
def flatCond (g : Geom) (grad : ℚ × ℚ → Option ℚ) (elevation_map : Field ℚ)
    (sea_level : ℚ) (gradient_to_flatness : ℚ → Option ℚ) (c : Cell) :
    Bool :=
  match assoc c elevation_map with
  | none => false
  | some e =>
    if e < sea_level then false
    else
      match grad (g.site c) with
      | none => false
      | some gv => (gradient_to_flatness gv).isSome

/-! ## Router eligibility and concrete witness data -/

/-- A neighbor survives the router's discard step iff it is present in the
elevation field and not higher than the current cell. -/
def eligible (terrain : Field ℚ) (elev : ℚ) (nb : Cell) : Bool :=
  match assoc nb terrain with
  | none => false
  | some nelev => decide (¬nelev > elev)

def eligList (terrain : Field ℚ) (elev : ℚ) (ns : List Cell) : List Cell :=
  ns.filter (eligible terrain elev)

/-- The slope value the router computes for a neighbor. -/
def slopeTo (g : Geom) (terrain : Field ℚ) (c : Cell) (elev : ℚ) (nb : Cell) :
    ℚ :=
  ((assoc nb terrain).getD 0 - elev) / g.dist c nb

/-- The elevation of a cell of the terrain field (0 off the field; only
read on cells of the field). -/
def elevOf (t : Field ℚ) (c : Cell) : ℚ := (assoc c t).getD 0

/-- Iterating `flow_to`. -/
def flowIter (nodes : Field InternalNode) (n : ℕ) (c : Cell) : Cell :=
  (flowOf nodes)^[n] c

/-- Bounded reachability along `flow_to`: a path of length at most the cell
count (under acyclicity this captures all reachability). -/
def reachesW (nodes : Field InternalNode) (u c : Cell) : Bool :=
  (List.range (nodes.length + 1)).any (fun n => flowIter nodes n u == c)

/-- Unbounded reachability along `flow_to`. -/
def Reaches (nodes : Field InternalNode) (u c : Cell) : Prop :=
  ∃ n, flowIter nodes n u = c

/-- The cells whose flow path passes through `c` (including `c`). -/
def upstream (nodes : Field InternalNode) (c : Cell) : Finset Cell :=
  (fkeys nodes).toFinset.filter (fun u => reachesW nodes u c)

/-- The total upstream area of `c`, including its own. -/
def subArea (nodes : Field InternalNode) (c : Cell) : ℚ :=
  Finset.sum (upstream nodes c) (areaOf nodes)

/-- The direct upstream contributors of `c` (cells flowing into it, other
than itself). -/
def contribs (nodes : Field InternalNode) (c : Cell) : Finset Cell :=
  (fkeys nodes).toFinset.filter (fun u => flowOf nodes u = c ∧ u ≠ c)

/-- The drainage-area table entry of `c` once exactly the contributors in
`D` have deposited: absent before any deposit. -/
def depSum (nodes : Field InternalNode) (D : Finset Cell) (c : Cell) :
    Option ℚ :=
  if contribs nodes c ∩ D = ∅ then none
  else some (Finset.sum (contribs nodes c ∩ D) (subArea nodes))

/-- The drainage-area table once the walks have completed exactly the cells
in `D` (a completed cell holds its full upstream area). -/
def daSpec (nodes : Field InternalNode) (D : Finset Cell) (c : Cell) :
    Option ℚ :=
  if c ∈ D then some (subArea nodes c) else depSum nodes D c

/-- The parent-count table once the walks have completed exactly the cells
in `D`: each completed contributor decremented its target once, except the
last one, which advanced into the target instead. -/
def pnSpec (nodes : Field InternalNode) (D : Finset Cell) (c : Cell) : ℕ :=
  if c ∈ fkeys nodes then
    (if c ∈ D then (if pn0 nodes c = 0 then 0 else 1)
     else pn0 nodes c - (contribs nodes c ∩ D).card)
  else 0

/-- Well-formedness of a completed set: completed cells are in-field
non-sinks whose contributors completed first. -/
def Dok (nodes : Field InternalNode) (D : Finset Cell) : Prop :=
  (∀ u ∈ D, u ∈ fkeys nodes) ∧ (∀ u ∈ D, flowOf nodes u ≠ u) ∧
    ∀ u ∈ D, contribs nodes u ⊆ D

/-- Saturation: between walks, a non-sink whose contributors all completed
is itself completed unless it is an unprocessed headwater (no parent). -/
def Sat (nodes : Field InternalNode) (D : Finset Cell) : Prop :=
  ∀ x ∈ fkeys nodes, flowOf nodes x ≠ x → x ∉ D → contribs nodes x ⊆ D →
    pn0 nodes x = 0

/-- Acyclicity of the flow graph: every cell reaches a sink within the cell
count. -/
def AcyclicN (nodes : Field InternalNode) : Prop :=
  ∀ c ∈ fkeys nodes, ∃ n ∈ List.range (nodes.length + 1),
    flowOf nodes (flowIter nodes n c) = flowIter nodes n c

/-- A 3-by-3 grid world (cell id = 3*row + col, 4-neighborhood) with
elevation row + col: strictly decreasing toward the corner cell 0. -/
def g33 : Geom :=
  ⟨fun c =>
      if c = 0 then [1, 3] else if c = 1 then [0, 2, 4]
      else if c = 2 then [1, 5] else if c = 3 then [0, 4, 6]
      else if c = 4 then [1, 3, 5, 7] else if c = 5 then [2, 4, 8]
      else if c = 6 then [3, 7] else if c = 7 then [4, 6, 8]
      else if c = 8 then [5, 7] else [],
    fun _ => 1, fun c => ((c % 3 : ℕ), (c / 3 : ℕ)), fun _ _ => 1, 1⟩

def t33 : Field ℚ :=
  [(0, 0), (1, 1), (2, 2), (3, 1), (4, 2), (5, 3), (6, 2), (7, 3), (8, 4)]

/-- A two-cell chain world: cell 0 (elevation 1, area 2) flows into the sink
cell 1 (elevation 0, area 3). -/
def gW2 : Geom :=
  ⟨fun c => if c = 0 then [1] else if c = 1 then [0] else [],
    fun c => if c = 0 then 2 else 3, fun c => ((c : ℚ), 0), fun _ _ => 1, 1⟩

def tW2 : Field ℚ := [(0, 1), (1, 0)]

/-- A concrete well-formed persisted record and its node, for the C8
witness. -/
def tokListW : List Tok :=
  [Tok.int 5, Tok.int 6, Tok.pointTag, Tok.num 1, Tok.num 2, Tok.blank,
    Tok.blank, Tok.blank, Tok.blank, Tok.num 10, Tok.num 11, Tok.num 12]

def nodeW : DrainageBasinNode := ⟨5, 10, 11, 12, 6, Stream.point (1, 2)⟩

/-- A two-cell flat world: cells 0 and 1, mutual Voronoi neighbors, equal
elevation 5.  The router sends each cell to the other. -/
def gFlat : Geom :=
  ⟨fun c => if c = 0 then [1] else if c = 1 then [0] else [],
    fun _ => 1, fun c => ((c : ℚ), 0), fun _ _ => 1, 1⟩

def tFlat : Field ℚ := [(0, 5), (1, 5)]

/-- A one-cell-with-three-neighbors world exercising the slope argmax. -/
def gW5 : Geom :=
  ⟨fun c => if c = 0 then [1, 2, 3] else [],
    fun _ => 1, fun c => ((c : ℚ), 0), fun _ _ => 1, 1⟩

def tW5 : Field ℚ := [(0, 10), (1, 12), (2, 8), (3, 9)]

/-- A throwaway default record, used only to name the record a concrete
lookup is known to return. -/
def dummyNode : DrainageBasinNode := ⟨0, 0, 0, 0, 0, Stream.point (0, 0)⟩

/-- A three-cell world for the flatness-map witness: cells 0 and 1 are
mutual neighbors, cell 2 is isolated and below sea level. -/
def gF3 : Geom :=
  ⟨fun c => if c = 0 then [1] else if c = 1 then [0] else [],
    fun _ => 1, fun c => ((c : ℚ), 0), fun _ _ => 1, 1⟩

def emW : Field ℚ := [(0, 2), (1, 3), (2, 0)]

/-- A total gradient estimate for the witness world. -/
def gradW : ℚ × ℚ → Option ℚ := fun p => some p.1

/-- An identity gradient-to-flatness function for the witness world. -/
def flatW : ℚ → Option ℚ := fun gv => some gv


/-! ## Basic association-list lemmas -/

lemma assoc_mem {α : Type} {c : Cell} {v : α} :
    ∀ {m : Field α}, assoc c m = some v → (c, v) ∈ m := by
  intro m
  induction m with
  | nil => intro h; simp [assoc] at h
  | cons p ps ih =>
    intro h
    obtain ⟨pc, pv⟩ := p
    by_cases hp : pc = c
    · subst hp
      have hv : pv = v := by simpa [assoc] using h
      subst hv
      exact List.mem_cons_self _ _
    · have h2 : assoc c ps = some v := by simpa [assoc, hp] using h
      exact List.mem_cons_of_mem _ (ih h2)

lemma assoc_map_keyed {α β : Type} (f : Cell → α → β) (c : Cell) :
    ∀ m : Field α,
      assoc c (m.map (fun p => (p.1, f p.1 p.2))) = (assoc c m).map (f c) := by
  intro m
  induction m with
  | nil => rfl
  | cons p ps ih =>
    by_cases hp : p.1 = c
    · subst hp; simp [assoc, List.map_cons]
    · simp [assoc, List.map_cons, if_neg hp, ih]

/-! ## Flow-router characterization -/

lemma routeStep_ineligible {g : Geom} {terrain : Field ℚ} {c : Cell}
    {elev : ℚ} {nb : Cell} (h : eligible terrain elev nb = false)
    (acc : Option Cell × ℚ) : routeStep g terrain c elev acc nb = acc := by
  unfold eligible at h
  cases hg : assoc nb terrain with
  | none => simp [routeStep, hg]
  | some nelev =>
    rw [hg] at h
    simp only [decide_eq_false_iff_not, not_not] at h
    simp [routeStep, hg, if_pos h]

lemma routeStep_eligible {g : Geom} {terrain : Field ℚ} {c : Cell} {elev : ℚ}
    {nb : Cell} (h : eligible terrain elev nb = true) (f : Option Cell)
    (sl : ℚ) :
    routeStep g terrain c elev (f, sl) nb =
      match f with
      | some _ =>
        if slopeTo g terrain c elev nb > sl
        then (some nb, slopeTo g terrain c elev nb) else (f, sl)
      | none => (some nb, slopeTo g terrain c elev nb) := by
  unfold eligible at h
  cases hg : assoc nb terrain with
  | none => rw [hg] at h; simp at h
  | some nelev =>
    rw [hg] at h
    simp only [decide_eq_true_eq] at h
    cases f with
    | none => simp [routeStep, hg, if_neg h, slopeTo]
    | some f0 => simp [routeStep, hg, if_neg h, slopeTo]

/-- Behaviour of the neighbor fold once a running best exists: the result is
the first eligible neighbor strictly improving on everything before it. -/
lemma routeFold_started (g : Geom) (terrain : Field ℚ) (c : Cell) (elev : ℚ) :
    ∀ (ns : List Cell) (f : Cell) (sl : ℚ),
      (ns.foldl (routeStep g terrain c elev) (some f, sl) = (some f, sl) ∧
        ∀ u ∈ eligList terrain elev ns, slopeTo g terrain c elev u ≤ sl) ∨
      (∃ fr l1 l2, eligList terrain elev ns = l1 ++ fr :: l2 ∧
        ns.foldl (routeStep g terrain c elev) (some f, sl) =
          (some fr, slopeTo g terrain c elev fr) ∧
        sl < slopeTo g terrain c elev fr ∧
        (∀ u ∈ l1, slopeTo g terrain c elev u < slopeTo g terrain c elev fr) ∧
        (∀ u ∈ l2, slopeTo g terrain c elev u ≤ slopeTo g terrain c elev fr)) := by
  intro ns
  induction ns with
  | nil => intro f sl; left; exact ⟨rfl, by simp [eligList]⟩
  | cons nb ns ih =>
    intro f sl
    cases he : eligible terrain elev nb with
    | false =>
      have hstep := routeStep_ineligible (g := g) (c := c) he (some f, sl)
      have hlist : eligList terrain elev (nb :: ns) = eligList terrain elev ns := by
        simp [eligList, List.filter_cons, he]
      rw [List.foldl_cons, hstep]
      rcases ih f sl with ⟨h1, h2⟩ | ⟨fr, l1, l2, h1, h2, h3, h4, h5⟩
      · left; exact ⟨h1, by rw [hlist]; exact h2⟩
      · right; exact ⟨fr, l1, l2, by rw [hlist]; exact h1, h2, h3, h4, h5⟩
    | true =>
      have hstep := routeStep_eligible (g := g) (c := c) he (some f) sl
      have hlist : eligList terrain elev (nb :: ns) =
          nb :: eligList terrain elev ns := by
        simp [eligList, List.filter_cons, he]
      rw [List.foldl_cons, hstep]
      by_cases hgt : slopeTo g terrain c elev nb > sl
      · simp only [if_pos hgt]
        rcases ih nb (slopeTo g terrain c elev nb) with
          ⟨h1, h2⟩ | ⟨fr, l1, l2, h1, h2, h3, h4, h5⟩
        · right
          refine ⟨nb, [], eligList terrain elev ns, by simp [hlist], h1, hgt,
            by simp, h2⟩
        · right
          refine ⟨fr, nb :: l1, l2, by simp [hlist, h1], h2, lt_trans hgt h3,
            ?_, h5⟩
          intro u hu
          rcases List.mem_cons.mp hu with rfl | hu
          · exact h3
          · exact h4 u hu
      · simp only [if_neg hgt]
        push_neg at hgt
        rcases ih f sl with ⟨h1, h2⟩ | ⟨fr, l1, l2, h1, h2, h3, h4, h5⟩
        · left
          refine ⟨h1, ?_⟩
          intro u hu
          rw [hlist] at hu
          rcases List.mem_cons.mp hu with rfl | hu
          · exact hgt
          · exact h2 u hu
        · right
          refine ⟨fr, nb :: l1, l2, by simp [hlist, h1], h2, h3, ?_, h5⟩
          intro u hu
          rcases List.mem_cons.mp hu with rfl | hu
          · exact lt_of_le_of_lt hgt h3
          · exact h4 u hu

/-- Full characterization of the neighbor fold from the initial
`(None, 0.0)` state. -/
lemma routeFold_spec (g : Geom) (terrain : Field ℚ) (c : Cell) (elev : ℚ) :
    ∀ ns : List Cell,
      (eligList terrain elev ns = [] ∧
        ns.foldl (routeStep g terrain c elev) (none, 0) = (none, 0)) ∨
      (∃ fr l1 l2, eligList terrain elev ns = l1 ++ fr :: l2 ∧
        ns.foldl (routeStep g terrain c elev) (none, 0) =
          (some fr, slopeTo g terrain c elev fr) ∧
        (∀ u ∈ l1, slopeTo g terrain c elev u < slopeTo g terrain c elev fr) ∧
        (∀ u ∈ l2, slopeTo g terrain c elev u ≤ slopeTo g terrain c elev fr)) := by
  intro ns
  induction ns with
  | nil => left; exact ⟨rfl, rfl⟩
  | cons nb ns ih =>
    cases he : eligible terrain elev nb with
    | false =>
      have hstep := routeStep_ineligible (g := g) (c := c) he (none, 0)
      have hlist : eligList terrain elev (nb :: ns) = eligList terrain elev ns := by
        simp [eligList, List.filter_cons, he]
      rw [List.foldl_cons, hstep]
      rcases ih with ⟨h1, h2⟩ | ⟨fr, l1, l2, h1, h2, h3, h4⟩
      · left; exact ⟨by rw [hlist, h1], h2⟩
      · right; exact ⟨fr, l1, l2, by rw [hlist, h1], h2, h3, h4⟩
    | true =>
      have hstep := routeStep_eligible (g := g) (c := c) he none 0
      have hlist : eligList terrain elev (nb :: ns) =
          nb :: eligList terrain elev ns := by
        simp [eligList, List.filter_cons, he]
      rw [List.foldl_cons, hstep]
      simp only []
      rcases routeFold_started g terrain c elev ns nb
          (slopeTo g terrain c elev nb) with
        ⟨h1, h2⟩ | ⟨fr, l1, l2, h1, h2, h3, h4, h5⟩
      · right
        exact ⟨nb, [], eligList terrain elev ns, by simp [hlist], h1, by simp, h2⟩
      · right
        refine ⟨fr, nb :: l1, l2, by simp [hlist, h1], h2, ?_, h5⟩
        intro u hu
        rcases List.mem_cons.mp hu with rfl | hu
        · exact h3
        · exact h4 u hu

lemma find?_of_filter_cons {α : Type} {p : α → Bool} {fr : α} {l2 : List α} :
    ∀ {l : List α}, l.filter p = fr :: l2 → l.find? p = some fr := by
  intro l
  induction l with
  | nil => intro h; simp at h
  | cons a as ih =>
    intro h
    cases hp : p a with
    | true =>
      rw [List.filter_cons_of_pos hp] at h
      rw [List.find?_cons_of_pos _ hp]
      exact congrArg some (List.cons_eq_cons.mp h).1
    | false =>
      rw [List.filter_cons_of_neg (by simp [hp])] at h
      rw [List.find?_cons_of_neg _ (by simp [hp])]
      exact ih h

lemma filter_ext {α : Type} {p q : α → Bool} (h : ∀ a, p a = q a)
    (l : List α) : l.filter p = l.filter q := by
  have hpq : p = q := funext h
  rw [hpq]

lemma getNode_routeAll (g : Geom) (t : Field ℚ) (c : Cell) (ec : ℚ)
    (hc : assoc c t = some ec) :
    getNode (routeAll g t) c = routeCell g t c ec := by
  unfold getNode routeAll
  rw [assoc_map_keyed (fun c2 e2 => routeCell g t c2 e2) c t, hc]
  rfl

lemma mem_fkeys_exists_assoc {α : Type} {c : Cell} :
    ∀ {m : Field α}, c ∈ fkeys m → ∃ v, assoc c m = some v := by
  intro m
  induction m with
  | nil => intro h; simp [fkeys] at h
  | cons p ps ih =>
    intro h
    by_cases hp : p.1 = c
    · exact ⟨p.2, by simp [assoc, hp]⟩
    · have hm : c ∈ fkeys ps := by
        simp only [fkeys, List.map_cons, List.mem_cons] at h
        rcases h with h | h
        · exact absurd h.symm hp
        · exact h
      obtain ⟨v, hv⟩ := ih hm
      exact ⟨v, by simp [assoc, hp, hv]⟩

lemma assoc_mem_fkeys {α : Type} {c : Cell} {v : α} {m : Field α}
    (h : assoc c m = some v) : c ∈ fkeys m :=
  List.mem_map.mpr ⟨(c, v), assoc_mem h, rfl⟩

/-- Every flow step of the router either stays (a sink) or lands on an
in-field neighbor whose elevation does not exceed the current one. -/
lemma router_flow_elev (g : Geom) (t : Field ℚ) (c : Cell) (ec : ℚ)
    (hc : assoc c t = some ec) :
    flowOf (routeAll g t) c = c ∨
      ∃ ef, assoc (flowOf (routeAll g t) c) t = some ef ∧ ef ≤ ec := by
  have hgn := getNode_routeAll g t c ec hc
  unfold flowOf
  rw [hgn]
  rcases routeFold_spec g t c ec (g.neighbors c) with
    ⟨h1, h2⟩ | ⟨fr, l1, l2, h1, h2, h3, h4⟩
  · left
    unfold routeCell; rw [h2]
  · have hfr : fr ∈ eligList t ec (g.neighbors c) := by rw [h1]; simp
    have helig : eligible t ec fr = true := List.of_mem_filter hfr
    unfold eligible at helig
    cases ha : assoc fr t with
    | none => rw [ha] at helig; simp at helig
    | some ef =>
      right
      rw [ha] at helig
      simp only [decide_eq_true_eq, not_lt] at helig
      have hft : (routeCell g t c ec).flow_to = fr := by
        unfold routeCell; rw [h2]
      rw [hft, ha]
      exact ⟨ef, rfl, helig⟩

/-! ## Flow-path lemmas -/

lemma flowIter_succ (nodes : Field InternalNode) (n : ℕ) (c : Cell) :
    flowIter nodes (n + 1) c = flowOf nodes (flowIter nodes n c) := by
  unfold flowIter
  rw [Function.iterate_succ_apply']

lemma flowIter_add (nodes : Field InternalNode) (m n : ℕ) (c : Cell) :
    flowIter nodes (m + n) c = flowIter nodes m (flowIter nodes n c) := by
  unfold flowIter
  rw [Function.iterate_add_apply]

lemma sink_absorb {nodes : Field InternalNode} {s : Cell}
    (hs : flowOf nodes s = s) : ∀ n, flowIter nodes n s = s := by
  intro n
  induction n with
  | zero => rfl
  | succ n ih => rw [flowIter_succ, ih, hs]

lemma flowIter_mem_keys {nodes : Field InternalNode}
    (hcl : ∀ x ∈ fkeys nodes, flowOf nodes x ∈ fkeys nodes) {c : Cell}
    (hc : c ∈ fkeys nodes) : ∀ n, flowIter nodes n c ∈ fkeys nodes := by
  intro n
  induction n with
  | zero => exact hc
  | succ n ih => rw [flowIter_succ]; exact hcl _ ih

lemma acyclic_sink_bound {nodes : Field InternalNode} (hac : AcyclicN nodes)
    {c : Cell} (hc : c ∈ fkeys nodes) :
    ∃ n ≤ nodes.length,
      flowOf nodes (flowIter nodes n c) = flowIter nodes n c := by
  obtain ⟨n, hn, h⟩ := hac c hc
  exact ⟨n, by simpa [Nat.lt_succ_iff] using List.mem_range.mp hn, h⟩

lemma reachesW_iff {nodes : Field InternalNode} (hac : AcyclicN nodes)
    {u c : Cell} (hu : u ∈ fkeys nodes) :
    reachesW nodes u c = true ↔ Reaches nodes u c := by
  constructor
  · intro h
    obtain ⟨n, -, hn⟩ := List.any_eq_true.mp h
    exact ⟨n, by simpa using hn⟩
  · rintro ⟨m, rfl⟩
    obtain ⟨n0, hn0, hsink⟩ := acyclic_sink_bound hac hu
    unfold reachesW
    rw [List.any_eq_true]
    by_cases hm : m ≤ nodes.length
    · exact ⟨m, List.mem_range.mpr (by omega), by simp⟩
    · refine ⟨n0, List.mem_range.mpr (by omega), ?_⟩
      have hsplit : m = (m - n0) + n0 := by omega
      rw [hsplit, flowIter_add, sink_absorb hsink]
      simp
  
lemma no_return {nodes : Field InternalNode} (hac : AcyclicN nodes)
    {c : Cell} (hc : c ∈ fkeys nodes) {j : ℕ} (hj : 1 ≤ j)
    (hloop : flowIter nodes j c = c) : flowOf nodes c = c := by
  obtain ⟨n0, hn0, hsink⟩ := acyclic_sink_bound hac hc
  have hper : ∀ k, flowIter nodes (k * j) c = c := by
    intro k
    induction k with
    | zero => rw [Nat.zero_mul]; rfl
    | succ k ih =>
      have hm : (k + 1) * j = j + k * j := by ring
      rw [hm, flowIter_add, ih, hloop]
  have h1 : flowIter nodes ((n0 + 1) * j) c = flowIter nodes n0 c := by
    have hk : n0 ≤ (n0 + 1) * j := by
      calc n0 ≤ n0 + 1 := by omega
        _ ≤ (n0 + 1) * j := Nat.le_mul_of_pos_right _ hj
    have hsplit : (n0 + 1) * j = ((n0 + 1) * j - n0) + n0 := by omega
    rw [hsplit, flowIter_add]
    exact sink_absorb hsink _
  have hc_eq : c = flowIter nodes n0 c := (hper (n0 + 1)).symm.trans h1
  rw [hc_eq]
  exact hsink

lemma reaches_sink_unique {nodes : Field InternalNode} {v s1 s2 : Cell}
    (hs1 : flowOf nodes s1 = s1) (hs2 : flowOf nodes s2 = s2)
    (h1 : Reaches nodes v s1) (h2 : Reaches nodes v s2) : s1 = s2 := by
  obtain ⟨a, ha⟩ := h1
  obtain ⟨b, hb⟩ := h2
  rcases le_total a b with hab | hab
  · have : flowIter nodes b v = s1 := by
      have hsplit : b = (b - a) + a := by omega
      rw [hsplit, flowIter_add, ha, sink_absorb hs1]
    rw [← hb, this]
  · have : flowIter nodes a v = s2 := by
      have hsplit : a = (a - b) + b := by omega
      rw [hsplit, flowIter_add, hb, sink_absorb hs2]
    rw [← ha, this]

lemma pred_of_reach {nodes : Field InternalNode} {v c : Cell} (hv : v ≠ c)
    (h : Reaches nodes v c) :
    ∃ u, Reaches nodes v u ∧ flowOf nodes u = c ∧ u ≠ c ∧
      ∃ k, flowIter nodes k v = u := by
  classical
  have hP : ∃ n, flowIter nodes n v = c := h
  set m := Nat.find hP with hm
  have hPm : flowIter nodes m v = c := Nat.find_spec hP
  have hm1 : 1 ≤ m := by
    rcases Nat.eq_zero_or_pos m with h0 | h0
    · exfalso
      apply hv
      rw [← hPm, h0]
      rfl
    · exact h0
  refine ⟨flowIter nodes (m - 1) v, ⟨m - 1, rfl⟩, ?_, ?_, m - 1, rfl⟩
  · rw [← flowIter_succ]
    have : m - 1 + 1 = m := by omega
    rw [this, hPm]
  · intro heq
    have := Nat.find_min hP (m := m - 1) (by omega)
    exact this heq

lemma contrib_reach_unique {nodes : Field InternalNode} (hac : AcyclicN nodes)
    (hcl : ∀ x ∈ fkeys nodes, flowOf nodes x ∈ fkeys nodes)
    {v c u1 u2 : Cell} (hk1 : u1 ∈ fkeys nodes) (hk2 : u2 ∈ fkeys nodes)
    (hf1 : flowOf nodes u1 = c) (hf2 : flowOf nodes u2 = c)
    (hn1 : u1 ≠ c) (hn2 : u2 ≠ c) (h1 : Reaches nodes v u1)
    (h2 : Reaches nodes v u2) : u1 = u2 := by
  have aux : ∀ w1 w2 : Cell, w1 ∈ fkeys nodes → flowOf nodes w1 = c →
      flowOf nodes w2 = c → w2 ≠ c → ∀ a b : ℕ, a ≤ b →
      flowIter nodes a v = w1 → flowIter nodes b v = w2 → w1 = w2 := by
    intro w1 w2 hw1 hfw1 hfw2 hnw2 a b hab ha hb
    have hw2iter : flowIter nodes (b - a) w1 = w2 := by
      rw [← ha, ← flowIter_add]
      have : b - a + a = b := by omega
      rw [this, hb]
    rcases Nat.eq_zero_or_pos (b - a) with h0 | h0
    · rw [← hw2iter, h0]
      rfl
    · exfalso
      obtain ⟨k, hk⟩ : ∃ k, b - a = k + 1 := ⟨b - a - 1, by omega⟩
      rw [hk] at hw2iter
      have hreach : flowIter nodes k c = w2 := by
        have : k + 1 = k + 1 := rfl
        rw [show k + 1 = k + 1 from rfl] at hw2iter
        have h3 : flowIter nodes (k + 1) w1 = flowIter nodes k (flowOf nodes w1) := by
          have : k + 1 = k + 1 := rfl
          unfold flowIter
          rw [Function.iterate_succ_apply]
        rw [h3, hfw1] at hw2iter
        exact hw2iter
      have hloop : flowIter nodes (k + 1) c = c := by
        rw [flowIter_succ, hreach, hfw2]
      have hcmem : c ∈ fkeys nodes := by
        rw [← hfw1]
        exact hcl _ hw1
      have hsinkc : flowOf nodes c = c := no_return hac hcmem (by omega) hloop
      apply hnw2
      rw [← hreach, sink_absorb hsinkc]
  obtain ⟨a, ha⟩ := h1
  obtain ⟨b, hb⟩ := h2
  rcases le_total a b with hab | hab
  · exact aux u1 u2 hk1 hf1 hf2 hn2 a b hab ha hb
  · exact (aux u2 u1 hk2 hf2 hf1 hn1 b a hab hb ha).symm

/-! ## The upstream partition -/

lemma mem_contribs {nodes : Field InternalNode} {u c : Cell} :
    u ∈ contribs nodes c ↔
      u ∈ fkeys nodes ∧ flowOf nodes u = c ∧ u ≠ c := by
  unfold contribs
  simp [Finset.mem_filter, List.mem_toFinset, and_assoc]

lemma mem_upstream {nodes : Field InternalNode} {u c : Cell} :
    u ∈ upstream nodes c ↔ u ∈ fkeys nodes ∧ reachesW nodes u c = true := by
  unfold upstream
  simp [Finset.mem_filter, List.mem_toFinset]

lemma self_mem_upstream {nodes : Field InternalNode} {c : Cell}
    (hc : c ∈ fkeys nodes) : c ∈ upstream nodes c := by
  rw [mem_upstream]
  refine ⟨hc, ?_⟩
  unfold reachesW
  rw [List.any_eq_true]
  exact ⟨0, List.mem_range.mpr (by omega), by simp [flowIter]⟩

lemma upstream_subset_of_contrib {nodes : Field InternalNode}
    (hac : AcyclicN nodes) {u c : Cell} (hu : u ∈ contribs nodes c) :
    upstream nodes u ⊆ upstream nodes c := by
  intro v hv
  rw [mem_upstream] at hv ⊢
  obtain ⟨hvk, hr⟩ := hv
  obtain ⟨huk, huf, -⟩ := mem_contribs.mp hu
  refine ⟨hvk, ?_⟩
  rw [reachesW_iff hac hvk] at hr ⊢
  obtain ⟨m, hm⟩ := hr
  exact ⟨m + 1, by rw [flowIter_succ, hm, huf]⟩

lemma not_mem_upstream_contrib {nodes : Field InternalNode}
    (hac : AcyclicN nodes)
    (hcl : ∀ x ∈ fkeys nodes, flowOf nodes x ∈ fkeys nodes) {u c : Cell}
    (hu : u ∈ contribs nodes c) : c ∉ upstream nodes u := by
  intro hmem
  rw [mem_upstream] at hmem
  obtain ⟨hck, hr⟩ := hmem
  obtain ⟨huk, huf, hune⟩ := mem_contribs.mp hu
  rw [reachesW_iff hac hck] at hr
  obtain ⟨k, hk⟩ := hr
  have hloop : flowIter nodes (k + 1) c = c := by
    rw [flowIter_succ, hk, huf]
  have hsinkc : flowOf nodes c = c := no_return hac hck (by omega) hloop
  apply hune
  rw [← hk, sink_absorb hsinkc]

lemma upstream_eq {nodes : Field InternalNode} (hac : AcyclicN nodes)
    (hcl : ∀ x ∈ fkeys nodes, flowOf nodes x ∈ fkeys nodes) {c : Cell}
    (hc : c ∈ fkeys nodes) :
    upstream nodes c =
      insert c ((contribs nodes c).biUnion (upstream nodes)) := by
  apply Finset.ext
  intro v
  constructor
  · intro hv
    obtain ⟨hvk, hr⟩ := mem_upstream.mp hv
    by_cases hvc : v = c
    · subst hvc
      exact Finset.mem_insert_self v _
    · rw [reachesW_iff hac hvk] at hr
      obtain ⟨u, hvu, huf, hune, k, hk⟩ := pred_of_reach hvc hr
      have huk : u ∈ fkeys nodes := by
        rw [← hk]
        exact flowIter_mem_keys hcl hvk k
      refine Finset.mem_insert_of_mem (Finset.mem_biUnion.mpr ⟨u, ?_, ?_⟩)
      · exact mem_contribs.mpr ⟨huk, huf, hune⟩
      · rw [mem_upstream]
        exact ⟨hvk, (reachesW_iff hac hvk).mpr hvu⟩
  · intro hv
    rcases Finset.mem_insert.mp hv with rfl | hv
    · exact self_mem_upstream hc
    · obtain ⟨u, hu, hvu⟩ := Finset.mem_biUnion.mp hv
      exact upstream_subset_of_contrib hac hu hvu

lemma subArea_eq {nodes : Field InternalNode} (hac : AcyclicN nodes)
    (hcl : ∀ x ∈ fkeys nodes, flowOf nodes x ∈ fkeys nodes) {c : Cell}
    (hc : c ∈ fkeys nodes) :
    subArea nodes c =
      areaOf nodes c + Finset.sum (contribs nodes c) (subArea nodes) := by
  unfold subArea
  rw [upstream_eq hac hcl hc]
  rw [Finset.sum_insert]
  · congr 1
    rw [Finset.sum_biUnion]
    intro u1 h1 u2 h2 hne
    rw [Finset.mem_coe] at h1 h2
    refine Finset.disjoint_left.mpr ?_
    intro v hv1 hv2
    apply hne
    obtain ⟨hv1k, hr1⟩ := mem_upstream.mp hv1
    obtain ⟨hv2k, hr2⟩ := mem_upstream.mp hv2
    rw [reachesW_iff hac hv1k] at hr1
    rw [reachesW_iff hac hv2k] at hr2
    obtain ⟨h1k, h1f, h1n⟩ := mem_contribs.mp h1
    obtain ⟨h2k, h2f, h2n⟩ := mem_contribs.mp h2
    exact contrib_reach_unique hac hcl h1k h2k h1f h2f h1n h2n hr1 hr2
  · intro hmem
    obtain ⟨u, hu, hcu⟩ := Finset.mem_biUnion.mp hmem
    exact not_mem_upstream_contrib hac hcl hu hcu

/-! ## Parent-count bookkeeping -/

lemma assoc_self_of_nodup {α : Type} :
    ∀ {m : Field α}, (fkeys m).Nodup → ∀ {p : Cell × α}, p ∈ m →
      assoc p.1 m = some p.2 := by
  intro m
  induction m with
  | nil => intro _ p hp; simp at hp
  | cons q qs ih =>
    intro hnd p hp
    have hnd2 : (q.1 :: fkeys qs).Nodup := by simpa [fkeys] using hnd
    rcases List.mem_cons.mp hp with rfl | hp2
    · simp [assoc]
    · have hne : q.1 ≠ p.1 := by
        intro he
        apply (List.nodup_cons.mp hnd2).1
        rw [he]
        exact List.mem_map.mpr ⟨p, hp2, rfl⟩
      simp only [assoc, if_neg hne]
      exact ih (List.nodup_cons.mp hnd2).2 hp2

lemma getNode_eq_of_mem {nodes : Field InternalNode}
    (hnd : (fkeys nodes).Nodup) {p : Cell × InternalNode} (hp : p ∈ nodes) :
    getNode nodes p.1 = p.2 := by
  unfold getNode
  rw [assoc_self_of_nodup hnd hp]
  rfl

lemma pn0_eq_card_filter {nodes : Field InternalNode}
    (hnd : (fkeys nodes).Nodup) (c : Cell) :
    pn0 nodes c =
      ((fkeys nodes).toFinset.filter (fun u => flowOf nodes u = c)).card := by
  unfold pn0
  rw [← List.countP_eq_length_filter]
  have h1 : nodes.countP (fun p => decide (p.2.flow_to = c)) =
      nodes.countP (fun p => decide (flowOf nodes p.1 = c)) := by
    apply List.countP_congr
    intro p hp
    have := getNode_eq_of_mem hnd hp
    simp [flowOf, this]
  have h2 : nodes.countP (fun p => decide (flowOf nodes p.1 = c)) =
      (fkeys nodes).countP (fun u => decide (flowOf nodes u = c)) := by
    unfold fkeys
    rw [List.countP_map]
    rfl
  rw [h1, h2]
  have h3 : ((fkeys nodes).filter
        (fun u => decide (flowOf nodes u = c))).toFinset =
      (fkeys nodes).toFinset.filter (fun u => flowOf nodes u = c) := by
    apply Finset.ext
    intro u
    simp [List.mem_filter]
  rw [← h3, List.card_toFinset,
    List.Nodup.dedup (List.Nodup.filter _ hnd),
    List.countP_eq_length_filter]

lemma pn0_nonsink {nodes : Field InternalNode}
    (hnd : (fkeys nodes).Nodup) {c : Cell}
    (h : flowOf nodes c ≠ c ∨ c ∉ fkeys nodes) :
    pn0 nodes c = (contribs nodes c).card := by
  rw [pn0_eq_card_filter hnd c]
  congr 1
  unfold contribs
  apply Finset.filter_congr
  intro u hu
  rw [List.mem_toFinset] at hu
  constructor
  · intro hf
    refine ⟨hf, ?_⟩
    intro he
    subst he
    rcases h with h | h
    · exact h hf
    · exact h hu
  · exact fun hf => hf.1

lemma pn0_sink {nodes : Field InternalNode} (hnd : (fkeys nodes).Nodup)
    {c : Cell} (hck : c ∈ fkeys nodes) (hs : flowOf nodes c = c) :
    pn0 nodes c = (contribs nodes c).card + 1 := by
  rw [pn0_eq_card_filter hnd c]
  have h3 : ((fkeys nodes).toFinset.filter (fun u => flowOf nodes u = c)) =
      insert c (contribs nodes c) := by
    apply Finset.ext
    intro u
    simp only [Finset.mem_filter, Finset.mem_insert, List.mem_toFinset,
      mem_contribs]
    constructor
    · intro ⟨hu, hf⟩
      by_cases he : u = c
      · exact Or.inl he
      · exact Or.inr ⟨hu, hf, he⟩
    · rintro (rfl | ⟨hu, hf, hne⟩)
      · exact ⟨hck, hs⟩
      · exact ⟨hu, hf⟩
  rw [h3, Finset.card_insert_of_not_mem]
  intro hmem
  exact (mem_contribs.mp hmem).2.2 rfl

lemma pn0_zero_of_not_mem {nodes : Field InternalNode}
    (hnd : (fkeys nodes).Nodup)
    (hcl : ∀ x ∈ fkeys nodes, flowOf nodes x ∈ fkeys nodes) {c : Cell}
    (hc : c ∉ fkeys nodes) : pn0 nodes c = 0 := by
  rw [pn0_nonsink hnd (Or.inr hc)]
  rw [Finset.card_eq_zero]
  apply Finset.eq_empty_of_forall_not_mem
  intro u hu
  obtain ⟨huk, huf, -⟩ := mem_contribs.mp hu
  apply hc
  rw [← huf]
  exact hcl _ huk

lemma contribs_empty_of_pn0_zero {nodes : Field InternalNode}
    (hnd : (fkeys nodes).Nodup) {c : Cell} (h : pn0 nodes c = 0) :
    contribs nodes c = ∅ := by
  by_cases hs : flowOf nodes c ≠ c ∨ c ∉ fkeys nodes
  · rw [pn0_nonsink hnd hs] at h
    exact Finset.card_eq_zero.mp h
  · push_neg at hs
    rw [pn0_sink hnd hs.2 hs.1] at h
    omega

lemma leaf_nonsink_of_mem {nodes : Field InternalNode}
    (hnd : (fkeys nodes).Nodup) {c : Cell} (hck : c ∈ fkeys nodes)
    (h : pn0 nodes c = 0) : flowOf nodes c ≠ c := by
  intro hs
  rw [pn0_sink hnd hck hs] at h
  omega

/-! ## The walk of the accumulation pass -/

lemma not_mem_contribs_of_ne {nodes : Field InternalNode} {c x : Cell}
    (h : flowOf nodes c ≠ x) : c ∉ contribs nodes x := by
  intro hmem
  exact h (mem_contribs.mp hmem).2.1

lemma inter_insert_of_not_mem {D : Finset Cell} {c : Cell} {s : Finset Cell}
    (h : c ∉ s) : s ∩ insert c D = s ∩ D := by
  apply Finset.ext
  intro u
  simp only [Finset.mem_inter, Finset.mem_insert]
  constructor
  · rintro ⟨hu, rfl | hu2⟩
    · exact absurd hu h
    · exact ⟨hu, hu2⟩
  · exact fun ⟨hu, hu2⟩ => ⟨hu, Or.inr hu2⟩

lemma pnSpec_insert_untouched {nodes : Field InternalNode} {D : Finset Cell}
    {c x : Cell} (hx1 : x ≠ c) (hcx : c ∉ contribs nodes x) :
    pnSpec nodes (insert c D) x = pnSpec nodes D x := by
  unfold pnSpec
  by_cases hk : x ∈ fkeys nodes
  · rw [if_pos hk, if_pos hk]
    by_cases hD : x ∈ D
    · rw [if_pos (Finset.mem_insert_of_mem hD), if_pos hD]
    · rw [if_neg (by simp [hx1, hD]), if_neg hD,
        inter_insert_of_not_mem hcx]
  · rw [if_neg hk, if_neg hk]

lemma daSpec_insert_untouched {nodes : Field InternalNode} {D : Finset Cell}
    {c x : Cell} (hx1 : x ≠ c) (hcx : c ∉ contribs nodes x) :
    daSpec nodes (insert c D) x = daSpec nodes D x := by
  unfold daSpec depSum
  by_cases hD : x ∈ D
  · rw [if_pos (Finset.mem_insert_of_mem hD), if_pos hD]
  · rw [if_neg (by simp [hx1, hD]), if_neg hD,
      inter_insert_of_not_mem hcx]

lemma walk_succ (nodes : Field InternalNode) (f : ℕ) (pn : Cell → ℕ)
    (da : Cell → Option ℚ) (c : Cell) (hns : flowOf nodes c ≠ c) :
    walk nodes (f + 1) pn da c =
      (if pn (flowOf nodes c) > 1
       then (updNat pn (flowOf nodes c) (pn (flowOf nodes c) - 1),
         updOpt (updOpt da c ((da c).getD 0 + areaOf nodes c))
           (flowOf nodes c)
           (((updOpt da c ((da c).getD 0 + areaOf nodes c))
               (flowOf nodes c)).getD 0 +
             ((updOpt da c ((da c).getD 0 + areaOf nodes c)) c).getD 0))
       else walk nodes f pn
         (updOpt (updOpt da c ((da c).getD 0 + areaOf nodes c))
           (flowOf nodes c)
           (((updOpt da c ((da c).getD 0 + areaOf nodes c))
               (flowOf nodes c)).getD 0 +
             ((updOpt da c ((da c).getD 0 + areaOf nodes c)) c).getD 0))
         (flowOf nodes c)) := by
  have hns2 : ¬((getNode nodes c).flow_to = c) := hns
  simp only [walk]
  rw [if_neg hns2]
  rfl

/-- Correctness of one walk of the accumulation pass: starting from a ready
cell `c` (all contributors completed, itself not), the walk completes a
downstream chain of cells, leaving both tables exactly at the spec state of
a larger completed set. -/
lemma walk_spec {nodes : Field InternalNode} (hnd : (fkeys nodes).Nodup)
    (hcl : ∀ x ∈ fkeys nodes, flowOf nodes x ∈ fkeys nodes)
    (hac : AcyclicN nodes) :
    ∀ (n fuel : ℕ) (pn : Cell → ℕ) (da : Cell → Option ℚ) (D : Finset Cell)
      (c : Cell),
      n ≤ fuel →
      flowOf nodes (flowIter nodes n c) = flowIter nodes n c →
      c ∈ fkeys nodes → flowOf nodes c ≠ c → c ∉ D →
      contribs nodes c ⊆ D → Dok nodes D →
      (∀ x ∈ fkeys nodes, flowOf nodes x ≠ x → x ∉ D → x ≠ c →
        contribs nodes x ⊆ D → pn0 nodes x = 0) →
      (∀ x, da x = daSpec nodes D x) →
      (∀ x, x ≠ c → pn x = pnSpec nodes D x) →
      pn c = pnSpec nodes (insert c D) c →
      ∃ D',
        (∀ x, (walk nodes fuel pn da c).1 x = pnSpec nodes D' x) ∧
        (∀ x, (walk nodes fuel pn da c).2 x = daSpec nodes D' x) ∧
        insert c D ⊆ D' ∧
        (∀ y ∈ D', y ∈ D ∨ Reaches nodes c y) ∧
        Dok nodes D' ∧ Sat nodes D' ∧
        (∀ w, pn0 nodes w = 0 → (w ∈ D' ↔ w ∈ D ∨ w = c)) := by
  intro n
  induction n with
  | zero =>
    intro fuel pn da D c hfuel hsink hck hns hcD hsub hDok hSat hda hpn hpnc
    exact absurd hsink hns
  | succ n ih =>
    intro fuel pn da D c hfuel hsink hck hns hcD hsub hDok hSat hda hpn hpnc
    obtain ⟨f, rfl⟩ : ∃ f, fuel = f + 1 := ⟨fuel - 1, by omega⟩
    have hf1k : flowOf nodes c ∈ fkeys nodes := hcl c hck
    have hcf1 : c ≠ flowOf nodes c := fun h => hns h.symm
    have hc_contrib : c ∈ contribs nodes (flowOf nodes c) :=
      mem_contribs.mpr ⟨hck, rfl, hcf1⟩
    have hf1D : flowOf nodes c ∉ D := fun hmem =>
      hcD (hDok.2.2 _ hmem hc_contrib)
    have hf1nins : flowOf nodes c ∉ insert c D := by
      simp only [Finset.mem_insert]
      rintro (h | h)
      · exact hcf1 h.symm
      · exact hf1D h
    have hsubc := subArea_eq hac hcl hck
    have hdac : (da c).getD 0 + areaOf nodes c = subArea nodes c := by
      rw [hda c]
      unfold daSpec
      rw [if_neg hcD]
      unfold depSum
      rw [Finset.inter_eq_left.mpr hsub]
      by_cases hce : contribs nodes c = ∅
      · rw [if_pos hce]
        simp only [Option.getD_none]
        rw [hsubc, hce, Finset.sum_empty]
        ring
      · rw [if_neg hce]
        simp only [Option.getD_some]
        rw [hsubc]
        ring
    have hda1 : ∀ x, (updOpt da c ((da c).getD 0 + areaOf nodes c)) x =
        if x = c then some (subArea nodes c) else daSpec nodes D x := by
      intro x
      unfold updOpt
      by_cases hx : x = c
      · rw [if_pos hx, if_pos hx, hdac]
      · rw [if_neg hx, if_neg hx, hda x]
    have hinterins : contribs nodes (flowOf nodes c) ∩ insert c D =
        insert c (contribs nodes (flowOf nodes c) ∩ D) := by
      apply Finset.ext
      intro u
      simp only [Finset.mem_inter, Finset.mem_insert]
      constructor
      · rintro ⟨hu, rfl | hu2⟩
        · exact Or.inl rfl
        · exact Or.inr ⟨hu, hu2⟩
      · rintro (rfl | ⟨hu, hu2⟩)
        · exact ⟨hc_contrib, Or.inl rfl⟩
        · exact ⟨hu, Or.inr hu2⟩
    have hcnotinter : c ∉ contribs nodes (flowOf nodes c) ∩ D := by
      simp only [Finset.mem_inter]
      rintro ⟨-, h⟩
      exact hcD h
    have hda2 : ∀ x,
        (updOpt (updOpt da c ((da c).getD 0 + areaOf nodes c))
          (flowOf nodes c)
          (((updOpt da c ((da c).getD 0 + areaOf nodes c))
              (flowOf nodes c)).getD 0 +
            ((updOpt da c ((da c).getD 0 + areaOf nodes c)) c).getD 0)) x =
        daSpec nodes (insert c D) x := by
      intro x
      rw [show ((updOpt da c ((da c).getD 0 + areaOf nodes c)) c).getD 0 =
          subArea nodes c by rw [hda1 c, if_pos rfl]; rfl]
      rw [show ((updOpt da c ((da c).getD 0 + areaOf nodes c))
            (flowOf nodes c)).getD 0 =
          (daSpec nodes D (flowOf nodes c)).getD 0 by
        rw [hda1 (flowOf nodes c), if_neg (fun h => hcf1 h.symm)]]
      unfold updOpt
      by_cases hx1 : x = flowOf nodes c
      · subst hx1
        rw [if_pos rfl]
        unfold daSpec
        rw [if_neg hf1nins, if_neg hf1D]
        unfold depSum
        rw [hinterins]
        by_cases hce : contribs nodes (flowOf nodes c) ∩ D = ∅
        · rw [if_pos hce, hce]
          rw [if_neg (by simp)]
          simp only [Option.getD_none]
          rw [Finset.sum_insert (by simp), Finset.sum_empty, zero_add,
            add_zero]
        · rw [if_neg hce, if_neg (by simp)]
          simp only [Option.getD_some]
          rw [Finset.sum_insert hcnotinter, add_comm]
      · rw [if_neg hx1]
        by_cases hx2 : x = c
        · subst hx2
          rw [if_pos rfl]
          unfold daSpec
          rw [if_pos (Finset.mem_insert_self x D), hdac]
        · rw [if_neg hx2, hda x]
          rw [daSpec_insert_untouched hx2
            (not_mem_contribs_of_ne (fun h => hx1 h.symm))]
    have hpnf1 : pn (flowOf nodes c) =
        pn0 nodes (flowOf nodes c) -
          (contribs nodes (flowOf nodes c) ∩ D).card := by
      rw [hpn _ (fun h => hcf1 h.symm)]
      unfold pnSpec
      rw [if_pos hf1k, if_neg hf1D]
    have hsubset : contribs nodes (flowOf nodes c) ∩ D ⊆
        (contribs nodes (flowOf nodes c)).erase c := by
      intro u hu
      obtain ⟨hu1, hu2⟩ := Finset.mem_inter.mp hu
      exact Finset.mem_erase.mpr ⟨fun h => hcD (h ▸ hu2), hu1⟩
    have hcard1 : 1 ≤ (contribs nodes (flowOf nodes c)).card :=
      Finset.card_pos.mpr ⟨c, hc_contrib⟩
    have hcarde : ((contribs nodes (flowOf nodes c)).erase c).card =
        (contribs nodes (flowOf nodes c)).card - 1 :=
      Finset.card_erase_of_mem hc_contrib
    have hdca : (contribs nodes (flowOf nodes c) ∩ D).card + 1 ≤
        (contribs nodes (flowOf nodes c)).card := by
      have := Finset.card_le_card hsubset
      omega
    have hDokIns : Dok nodes (insert c D) := by
      refine ⟨?_, ?_, ?_⟩
      · intro u hu
        rcases Finset.mem_insert.mp hu with rfl | hu2
        · exact hck
        · exact hDok.1 u hu2
      · intro u hu
        rcases Finset.mem_insert.mp hu with rfl | hu2
        · exact hns
        · exact hDok.2.1 u hu2
      · intro u hu
        rcases Finset.mem_insert.mp hu with rfl | hu2
        · exact hsub.trans (Finset.subset_insert _ _)
        · exact (hDok.2.2 u hu2).trans (Finset.subset_insert _ _)
    have hSatIns_aux : ∀ x ∈ fkeys nodes, flowOf nodes x ≠ x →
        x ∉ insert c D → x ≠ flowOf nodes c →
        contribs nodes x ⊆ insert c D → pn0 nodes x = 0 := by
      intro x hxk hxns hxnotin hxf hsubx
      have hxc : x ≠ c := fun h => hxnotin (h ▸ Finset.mem_insert_self c D)
      have hxD : x ∉ D := fun h => hxnotin (Finset.mem_insert_of_mem h)
      refine hSat x hxk hxns hxD hxc ?_
      intro u hu
      rcases Finset.mem_insert.mp (hsubx hu) with rfl | hu2
      · exact absurd ((mem_contribs.mp hu).2.1) (fun h => hxf h.symm)
      · exact hu2
    have hpn0f1pos : pn0 nodes (flowOf nodes c) ≠ 0 := by
      by_cases hs : flowOf nodes (flowOf nodes c) = flowOf nodes c
      · rw [pn0_sink hnd hf1k hs]
        omega
      · rw [pn0_nonsink hnd (Or.inl hs)]
        omega
    rw [walk_succ nodes f pn da c hns]
    by_cases hgt : pn (flowOf nodes c) > 1
    · rw [if_pos hgt]
      refine ⟨insert c D, ?_, ?_, Finset.Subset.refl _, ?_, hDokIns, ?_, ?_⟩
      · intro x
        show updNat pn (flowOf nodes c) (pn (flowOf nodes c) - 1) x =
          pnSpec nodes (insert c D) x
        unfold updNat
        by_cases hx1 : x = flowOf nodes c
        · subst hx1
          rw [if_pos rfl]
          unfold pnSpec
          rw [if_pos hf1k, if_neg hf1nins, hinterins,
            Finset.card_insert_of_not_mem hcnotinter]
          rw [hpnf1]
          omega
        · rw [if_neg hx1]
          by_cases hx2 : x = c
          · subst hx2
            exact hpnc
          · rw [hpn x hx2, pnSpec_insert_untouched hx2
              (not_mem_contribs_of_ne (fun h => hx1 h.symm))]
      · exact hda2
      · intro y hy
        rcases Finset.mem_insert.mp hy with rfl | hy2
        · exact Or.inr ⟨0, rfl⟩
        · exact Or.inl hy2
      · intro x hxk hxns hxnotin hsubx
        by_cases hxf : x = flowOf nodes c
        · subst hxf
          exfalso
          have herase_sub : (contribs nodes (flowOf nodes c)).erase c ⊆
              contribs nodes (flowOf nodes c) ∩ D := by
            intro u hu
            obtain ⟨hu1, hu2⟩ := Finset.mem_erase.mp hu
            refine Finset.mem_inter.mpr ⟨hu2, ?_⟩
            rcases Finset.mem_insert.mp (hsubx hu2) with rfl | h
            · exact absurd rfl hu1
            · exact h
          have h1 := Finset.card_le_card herase_sub
          have h2 : pn0 nodes (flowOf nodes c) =
              (contribs nodes (flowOf nodes c)).card :=
            pn0_nonsink hnd (Or.inl hxns)
          omega
        · exact hSatIns_aux x hxk hxns hxnotin hxf hsubx
      · intro w hw
        simp [Finset.mem_insert, or_comm]
    · rw [if_neg hgt]
      have hf1ns : flowOf nodes (flowOf nodes c) ≠ flowOf nodes c := by
        intro hs
        rw [pn0_sink hnd hf1k hs] at hpnf1
        omega
      have hpn0f1 : pn0 nodes (flowOf nodes c) =
          (contribs nodes (flowOf nodes c)).card :=
        pn0_nonsink hnd (Or.inl hf1ns)
      have hpn1 : pn (flowOf nodes c) = 1 := by omega
      have hsubf1 : contribs nodes (flowOf nodes c) ⊆ insert c D := by
        have herase := Finset.eq_of_subset_of_card_le hsubset
          (by rw [hcarde]; omega)
        intro u hu
        by_cases huc : u = c
        · exact huc ▸ Finset.mem_insert_self c D
        · have hmem : u ∈ (contribs nodes (flowOf nodes c)).erase c :=
            Finset.mem_erase.mpr ⟨huc, hu⟩
          rw [← herase] at hmem
          exact Finset.mem_insert_of_mem (Finset.mem_inter.mp hmem).2
      have hsinkf1 : flowOf nodes
          (flowIter nodes n (flowOf nodes c)) =
          flowIter nodes n (flowOf nodes c) := by
        have hit : flowIter nodes n (flowOf nodes c) =
            flowIter nodes (n + 1) c :=
          (Function.iterate_succ_apply (flowOf nodes) n c).symm
        rw [hit]
        exact hsink
      obtain ⟨D2, hw1, hw2, hsub2, hdown2, hDok2, hSat2, hleaf2⟩ :=
        ih f pn _ (insert c D) (flowOf nodes c) (by omega) hsinkf1 hf1k
          hf1ns hf1nins hsubf1 hDokIns hSatIns_aux hda2
          (by
            intro x hx
            by_cases hx2 : x = c
            · subst hx2
              exact hpnc
            · rw [hpn x hx2, pnSpec_insert_untouched hx2
                (not_mem_contribs_of_ne (fun h => hx h.symm))])
          (by
            unfold pnSpec
            rw [if_pos hf1k,
              if_pos (Finset.mem_insert_self (flowOf nodes c) _),
              if_neg hpn0f1pos]
            exact hpn1)
      refine ⟨D2, hw1, hw2, ?_, ?_, hDok2, hSat2, ?_⟩
      · exact (Finset.subset_insert (flowOf nodes c) (insert c D)).trans hsub2
      · intro y hy
        rcases hdown2 y hy with hy2 | hy2
        · rcases Finset.mem_insert.mp hy2 with rfl | hy3
          · exact Or.inr ⟨0, rfl⟩
          · exact Or.inl hy3
        · obtain ⟨m, hm⟩ := hy2
          refine Or.inr ⟨m + 1, ?_⟩
          rw [show flowIter nodes (m + 1) c =
            flowIter nodes m (flowOf nodes c) from
            Function.iterate_succ_apply (flowOf nodes) m c]
          exact hm
      · intro w hw
        rw [hleaf2 w hw]
        constructor
        · rintro (hw2 | rfl)
          · rcases Finset.mem_insert.mp hw2 with rfl | hw3
            · exact Or.inr rfl
            · exact Or.inl hw3
          · exact absurd hw hpn0f1pos
        · rintro (hw2 | rfl)
          · exact Or.inl (Finset.mem_insert_of_mem hw2)
          · exact Or.inl (Finset.mem_insert_self _ _)

/-- Correctness of the whole accumulation pass, by induction over the
seeding loop: the tables always match the spec state of some completed set,
and after the loop every headwater cell is completed. -/
lemma accumulate_fold_spec {nodes : Field InternalNode}
    (hnd : (fkeys nodes).Nodup)
    (hcl : ∀ x ∈ fkeys nodes, flowOf nodes x ∈ fkeys nodes)
    (hac : AcyclicN nodes) :
    ∀ (rest : List (Cell × InternalNode)) (P : List Cell) (pn : Cell → ℕ)
      (da : Cell → Option ℚ) (D : Finset Cell),
      fkeys nodes = P ++ rest.map Prod.fst →
      (∀ x, pn x = pnSpec nodes D x) →
      (∀ x, da x = daSpec nodes D x) →
      Dok nodes D → Sat nodes D →
      (∀ w ∈ fkeys nodes, pn0 nodes w = 0 → (w ∈ D ↔ w ∈ P)) →
      ∃ D',
        (∀ x, (rest.foldl (fun st p => if st.1 p.1 ≠ 0 then st
            else walk nodes nodes.length st.1 st.2 p.1) (pn, da)).1 x =
          pnSpec nodes D' x) ∧
        (∀ x, (rest.foldl (fun st p => if st.1 p.1 ≠ 0 then st
            else walk nodes nodes.length st.1 st.2 p.1) (pn, da)).2 x =
          daSpec nodes D' x) ∧
        Dok nodes D' ∧ Sat nodes D' ∧
        (∀ w ∈ fkeys nodes, pn0 nodes w = 0 →
          (w ∈ D' ↔ w ∈ P ++ rest.map Prod.fst)) := by
  intro rest
  induction rest with
  | nil =>
    intro P pn da D hsplit hpn hda hDok hSat hleaf
    exact ⟨D, hpn, hda, hDok, hSat, by simpa using hleaf⟩
  | cons p rest ihr =>
    intro P pn da D hsplit hpn hda hDok hSat hleaf
    have hp1k : p.1 ∈ fkeys nodes := by
      rw [hsplit]
      simp
    have hp1P : p.1 ∉ P := by
      intro hmem
      have h2 := hsplit ▸ hnd
      rw [List.nodup_append] at h2
      exact h2.2.2 hmem (by simp)
    rw [List.foldl_cons]
    by_cases h0 : pn p.1 = 0
    · rw [if_neg (by simp [h0])]
      have hp1D : p.1 ∉ D := by
        intro hD
        rw [hpn p.1] at h0
        unfold pnSpec at h0
        rw [if_pos hp1k, if_pos hD] at h0
        by_cases hz : pn0 nodes p.1 = 0
        · exact hp1P ((hleaf p.1 hp1k hz).mp hD)
        · rw [if_neg hz] at h0
          omega
      have hpn0 : pn0 nodes p.1 = 0 := by
        rw [hpn p.1] at h0
        unfold pnSpec at h0
        rw [if_pos hp1k, if_neg hp1D] at h0
        by_cases hz : pn0 nodes p.1 = 0
        · exact hz
        · exfalso
          by_cases hs : flowOf nodes p.1 = p.1
          · rw [pn0_sink hnd hp1k hs] at h0 hz
            have hle : (contribs nodes p.1 ∩ D).card ≤
                (contribs nodes p.1).card :=
              Finset.card_le_card (Finset.inter_subset_left)
            omega
          · have hcard : pn0 nodes p.1 = (contribs nodes p.1).card :=
              pn0_nonsink hnd (Or.inl hs)
            have hsubD : contribs nodes p.1 ⊆ D := by
              have hle : (contribs nodes p.1 ∩ D).card ≤
                  (contribs nodes p.1).card :=
                Finset.card_le_card (Finset.inter_subset_left)
              have hsubint : contribs nodes p.1 ∩ D ⊆ contribs nodes p.1 :=
                Finset.inter_subset_left
              have heq := Finset.eq_of_subset_of_card_le hsubint (by omega)
              intro u hu
              have : u ∈ contribs nodes p.1 ∩ D := by rw [heq]; exact hu
              exact (Finset.mem_inter.mp this).2
            exact hz (hSat p.1 hp1k hs hp1D hsubD)
      have hcontribs : contribs nodes p.1 = ∅ :=
        contribs_empty_of_pn0_zero hnd hpn0
      have hns : flowOf nodes p.1 ≠ p.1 := leaf_nonsink_of_mem hnd hp1k hpn0
      obtain ⟨nsk, hnsk, hsink⟩ := acyclic_sink_bound hac hp1k
      obtain ⟨D2, hw1, hw2, hsub2, hdown2, hDok2, hSat2, hleaf2⟩ :=
        walk_spec hnd hcl hac nsk nodes.length pn da D p.1 hnsk hsink hp1k
          hns hp1D (by rw [hcontribs]; exact Finset.empty_subset D) hDok
          (fun x hxk hxns hxD hxc hsubx => hSat x hxk hxns hxD hsubx)
          hda (fun x _ => hpn x)
          (by
            rw [h0]
            unfold pnSpec
            rw [if_pos hp1k, if_pos (Finset.mem_insert_self p.1 D),
              if_pos hpn0])
      obtain ⟨D3, hf1, hf2, hDok3, hSat3, hleaf3⟩ :=
        ihr (P ++ [p.1]) (walk nodes nodes.length pn da p.1).1
          (walk nodes nodes.length pn da p.1).2 D2
          (by rw [hsplit]; simp)
          hw1 hw2 hDok2 hSat2
          (by
            intro w hwk hw0
            rw [hleaf2 w hw0, hleaf w hwk hw0]
            simp [or_comm])
      refine ⟨D3, hf1, hf2, hDok3, hSat3, ?_⟩
      intro w hwk hw0
      rw [hleaf3 w hwk hw0]
      simp
    · rw [if_pos (by simp [h0])]
      have hp1leaf : pn0 nodes p.1 ≠ 0 := by
        intro hz
        apply h0
        rw [hpn p.1]
        unfold pnSpec
        rw [if_pos hp1k]
        by_cases hD : p.1 ∈ D
        · rw [if_pos hD, if_pos hz]
        · rw [if_neg hD, hz]
          simp
      obtain ⟨D3, hf1, hf2, hDok3, hSat3, hleaf3⟩ :=
        ihr (P ++ [p.1]) pn da D (by rw [hsplit]; simp) hpn hda hDok hSat
          (by
            intro w hwk hw0
            rw [hleaf w hwk hw0]
            have hwp : w ≠ p.1 := fun h => hp1leaf (h ▸ hw0)
            simp [hwp])
      refine ⟨D3, hf1, hf2, hDok3, hSat3, ?_⟩
      intro w hwk hw0
      rw [hleaf3 w hwk hw0]
      simp

/-- The state after `accumulate`: the spec state of a completed set
containing every headwater cell. -/
lemma accumulate_spec {nodes : Field InternalNode}
    (hnd : (fkeys nodes).Nodup)
    (hcl : ∀ x ∈ fkeys nodes, flowOf nodes x ∈ fkeys nodes)
    (hac : AcyclicN nodes) :
    ∃ D',
      (∀ x, (accumulate nodes).1 x = pnSpec nodes D' x) ∧
      (∀ x, (accumulate nodes).2 x = daSpec nodes D' x) ∧
      Dok nodes D' ∧ Sat nodes D' ∧
      (∀ w ∈ fkeys nodes, pn0 nodes w = 0 → w ∈ D') := by
  obtain ⟨D', h1, h2, h3, h4, h5⟩ :=
    accumulate_fold_spec hnd hcl hac nodes [] (pn0 nodes) (fun _ => none) ∅
      (by simp [fkeys])
      (by
        intro x
        unfold pnSpec
        by_cases hk : x ∈ fkeys nodes
        · rw [if_pos hk, if_neg (Finset.not_mem_empty x)]
          simp
        · rw [if_neg hk]
          exact pn0_zero_of_not_mem hnd hcl hk)
      (by intro x; simp [daSpec, depSum])
      ⟨fun u hu => absurd hu (Finset.not_mem_empty u),
        fun u hu => absurd hu (Finset.not_mem_empty u),
        fun u hu => absurd hu (Finset.not_mem_empty u)⟩
      (by
        intro x hxk hxns hxD hsubx
        have hce : contribs nodes x = ∅ :=
          Finset.subset_empty.mp hsubx
        rw [pn0_nonsink hnd (Or.inl hxns), hce]
        rfl)
      (by simp)
  refine ⟨D', h1, h2, h3, h4, ?_⟩
  intro w hwk hw0
  rw [h5 w hwk hw0]
  simpa [fkeys] using hwk

/-- After the pass, every in-field non-sink cell is completed. -/
lemma nonsink_done {nodes : Field InternalNode} (hnd : (fkeys nodes).Nodup)
    (hcl : ∀ x ∈ fkeys nodes, flowOf nodes x ∈ fkeys nodes)
    (hac : AcyclicN nodes) {D : Finset Cell} (hDok : Dok nodes D)
    (hSat : Sat nodes D)
    (hleaf : ∀ w ∈ fkeys nodes, pn0 nodes w = 0 → w ∈ D) :
    ∀ x ∈ fkeys nodes, flowOf nodes x ≠ x → x ∈ D := by
  have main : ∀ k, ∀ x ∈ fkeys nodes, flowOf nodes x ≠ x →
      (upstream nodes x).card ≤ k → x ∈ D := by
    intro k
    induction k with
    | zero =>
      intro x hxk hxns hcard
      have := Finset.card_pos.mpr ⟨x, self_mem_upstream hxk⟩
      omega
    | succ k ihk =>
      intro x hxk hxns hcard
      by_contra hxD
      have hcsub : contribs nodes x ⊆ D := by
        intro u hu
        obtain ⟨huk, huf, hun⟩ := mem_contribs.mp hu
        have hu_ns : flowOf nodes u ≠ u := by
          intro h
          have hxu : x = u := by rw [← huf, h]
          exact hun hxu.symm
        apply ihk u huk hu_ns
        have hsub2 : upstream nodes u ⊆ upstream nodes x :=
          upstream_subset_of_contrib hac hu
        have hxnot : x ∉ upstream nodes u :=
          not_mem_upstream_contrib hac hcl hu
        have hss : upstream nodes u ⊂ upstream nodes x :=
          ⟨hsub2, fun hsup => hxnot (hsup (self_mem_upstream hxk))⟩
        have := Finset.card_lt_card hss
        omega
      exact hxD (hleaf x hxk (hSat x hxk hxns hxD hcsub))
  intro x hxk hxns
  exact main (upstream nodes x).card x hxk hxns le_rfl

/-- The final drainage-area table: a non-sink holds its full upstream area;
a sink holds the contributions of its direct upstream cells — its own area
is never added (the self-loop inflates its parent count). -/
lemma accumulate_char {nodes : Field InternalNode}
    (hnd : (fkeys nodes).Nodup)
    (hcl : ∀ x ∈ fkeys nodes, flowOf nodes x ∈ fkeys nodes)
    (hac : AcyclicN nodes) :
    (∀ c ∈ fkeys nodes, flowOf nodes c ≠ c →
      (accumulate nodes).2 c = some (subArea nodes c)) ∧
    (∀ c ∈ fkeys nodes, flowOf nodes c = c →
      (accumulate nodes).2 c =
        (if contribs nodes c = ∅ then none
         else some (subArea nodes c - areaOf nodes c))) := by
  obtain ⟨D', hpn', hda', hDok', hSat', hleaf'⟩ := accumulate_spec hnd hcl hac
  have hdone := nonsink_done hnd hcl hac hDok' hSat' hleaf'
  constructor
  · intro c hck hcns
    rw [hda' c]
    unfold daSpec
    rw [if_pos (hdone c hck hcns)]
  · intro c hck hcs
    have hcD : c ∉ D' := fun h => hDok'.2.1 c h hcs
    have hinter : contribs nodes c ∩ D' = contribs nodes c := by
      apply Finset.inter_eq_left.mpr
      intro u hu
      obtain ⟨huk, huf, hun⟩ := mem_contribs.mp hu
      exact hdone u huk (by
        intro h
        have : c = u := by rw [← huf, h]
        exact hun this.symm)
    rw [hda' c]
    unfold daSpec
    rw [if_neg hcD]
    unfold depSum
    rw [hinter]
    by_cases hce : contribs nodes c = ∅
    · rw [if_pos hce, if_pos hce]
    · rw [if_neg hce, if_neg hce]
      have := subArea_eq hac hcl hck
      congr 1
      linarith

/-! ## Record assembly -/

lemma assoc_filterMap {α β : Type} (F : Cell × α → Option (Cell × β))
    (hF : ∀ p q, F p = some q → q.1 = p.1) :
    ∀ {m : Field α}, (fkeys m).Nodup → ∀ c,
      assoc c (m.filterMap F) =
        (assoc c m).bind (fun v => (F (c, v)).map Prod.snd) := by
  intro m
  induction m with
  | nil => intro _ c; rfl
  | cons p ps ih =>
    intro hnd c
    have hnd2 : (p.1 :: fkeys ps).Nodup := by simpa [fkeys] using hnd
    rw [List.filterMap_cons]
    by_cases hpc : p.1 = c
    · have hcp : (c, p.2) = p := by rw [← hpc]
      cases hFp : F p with
      | none =>
        have hc_not : c ∉ fkeys ps := hpc ▸ (List.nodup_cons.mp hnd2).1
        have hnone : assoc c (ps.filterMap F) = none := by
          cases ha : assoc c (ps.filterMap F) with
          | none => rfl
          | some w =>
            exfalso
            obtain ⟨q, hq_mem, hq⟩ := List.mem_filterMap.mp (assoc_mem ha)
            apply hc_not
            rw [show c = q.1 from hF q (c, w) hq]
            exact List.mem_map.mpr ⟨q, hq_mem, rfl⟩
        rw [hnone, show assoc c (p :: ps) = some p.2 from by
          simp [assoc, hpc]]
        simp [hcp, hFp]
      | some q =>
        have hq1 : q.1 = p.1 := hF p q hFp
        rw [show assoc c (q :: ps.filterMap F) = some q.2 from by
          simp [assoc, hq1.trans hpc]]
        rw [show assoc c (p :: ps) = some p.2 from by simp [assoc, hpc]]
        simp [hcp, hFp]
    · cases hFp : F p with
      | none =>
        rw [show assoc c (p :: ps) = assoc c ps from by simp [assoc, hpc]]
        exact ih (List.nodup_cons.mp hnd2).2 c
      | some q =>
        have hq1 : q.1 = p.1 := hF p q hFp
        rw [show assoc c (q :: ps.filterMap F) = assoc c (ps.filterMap F)
          from by simp [assoc, hq1, hpc]]
        rw [show assoc c (p :: ps) = assoc c ps from by simp [assoc, hpc]]
        exact ih (List.nodup_cons.mp hnd2).2 c

lemma assoc_riverPaths {g : Geom} {nodes : Field InternalNode}
    (hnd : (fkeys nodes).Nodup) (c : Cell) :
    assoc c (riverPaths g nodes) =
      (assoc c nodes).bind (fun nd =>
        if nd.flow_to = c then none
        else some (streamNew (g.site c) (g.site nd.flow_to)
          (g.site (flowOf nodes nd.flow_to)))) := by
  unfold riverPaths
  rw [assoc_filterMap _ ?hF hnd c]
  case hF =>
    intro p q hq
    by_cases h : p.2.flow_to = p.1
    · rw [if_pos h] at hq
      exact absurd hq (by simp)
    · rw [if_neg h] at hq
      simp only [Option.some.injEq] at hq
      rw [← hq]
  cases assoc c nodes with
  | none => rfl
  | some nd =>
    simp only [Option.some_bind]
    by_cases h : nd.flow_to = c
    · rw [if_pos h, if_pos h]
      rfl
    · rw [if_neg h, if_neg h]
      rfl

lemma assoc_assemble {g : Geom} {nodes : Field InternalNode}
    (hnd : (fkeys nodes).Nodup) (c : Cell) :
    assoc c (assemble g nodes) =
      (assoc c nodes).bind (fun nd =>
        match (accumulate nodes).2 c, assoc c (riverPaths g nodes) with
        | some dav, some river =>
          some ⟨c, nd.area, dav, nd.slope, nd.flow_to, river⟩
        | _, _ => none) := by
  unfold assemble
  rw [assoc_filterMap _ ?hF hnd c]
  case hF =>
    intro p q hq
    cases hda : (accumulate nodes).2 p.1 with
    | none => rw [hda] at hq; exact absurd hq (by simp)
    | some dav =>
    cases hrp : assoc p.1 (riverPaths g nodes) with
    | none => rw [hda, hrp] at hq; exact absurd hq (by simp)
    | some river =>
      rw [hda, hrp] at hq
      simp only [Option.some.injEq] at hq
      rw [← hq]
  cases assoc c nodes with
  | none => rfl
  | some nd =>
    simp only [Option.some_bind]
    cases hda : (accumulate nodes).2 c with
    | none =>
      cases hrp : assoc c (riverPaths g nodes) with
      | none => rfl
      | some river => rfl
    | some dav =>
      cases hrp : assoc c (riverPaths g nodes) with
      | none => rfl
      | some river => rfl

lemma fkeys_routeAll (g : Geom) (t : Field ℚ) :
    fkeys (routeAll g t) = fkeys t := by
  unfold fkeys routeAll
  rw [List.map_map]
  rfl

lemma routeCell_area (g : Geom) (t : Field ℚ) (c : Cell) (e : ℚ) :
    (routeCell g t c e).area = g.area c := by
  unfold routeCell
  cases hst : ((g.neighbors c).foldl (routeStep g t c e) (none, 0)).1 with
  | none => simp [hst]
  | some f => simp [hst]

lemma routeAll_closed (g : Geom) (t : Field ℚ) :
    ∀ c ∈ fkeys (routeAll g t),
      flowOf (routeAll g t) c ∈ fkeys (routeAll g t) := by
  intro c hc
  rw [fkeys_routeAll] at hc ⊢
  obtain ⟨ec, hec⟩ := mem_fkeys_exists_assoc hc
  rcases router_flow_elev g t c ec hec with h | ⟨ef, hef, -⟩
  · rw [h]
    exact hc
  · exact assoc_mem_fkeys hef

lemma areaOf_routeAll (g : Geom) (t : Field ℚ) (c : Cell) (ec : ℚ)
    (hc : assoc c t = some ec) :
    areaOf (routeAll g t) c = g.area c := by
  unfold areaOf
  rw [getNode_routeAll g t c ec hc, routeCell_area]

lemma assemble_some {g : Geom} {nodes : Field InternalNode}
    (hnd : (fkeys nodes).Nodup) {c : Cell} {r : DrainageBasinNode} :
    assoc c (assemble g nodes) = some r ↔
      ∃ nd dav, assoc c nodes = some nd ∧ nd.flow_to ≠ c ∧
        (accumulate nodes).2 c = some dav ∧
        r = ⟨c, nd.area, dav, nd.slope, nd.flow_to,
          streamNew (g.site c) (g.site nd.flow_to)
            (g.site (flowOf nodes nd.flow_to))⟩ := by
  rw [assoc_assemble hnd c]
  have hrp := assoc_riverPaths hnd (g := g) c
  cases ha : assoc c nodes with
  | none => simp [ha]
  | some nd =>
    rw [ha, Option.some_bind] at hrp
    rw [Option.some_bind]
    by_cases hft : nd.flow_to = c
    · rw [if_pos hft] at hrp
      rw [hrp]
      cases hda : (accumulate nodes).2 c with
      | none =>
        simp only [ha, Option.some.injEq]
        constructor
        · intro h
          exact absurd h (by simp)
        · rintro ⟨nd2, dav, hnd2, hne, -, -⟩
          exact absurd (hnd2 ▸ hft) hne
      | some dav =>
        simp only [ha, Option.some.injEq]
        constructor
        · intro h
          exact absurd h (by simp)
        · rintro ⟨nd2, dav2, hnd2, hne, -, -⟩
          exact absurd (hnd2 ▸ hft) hne
    · rw [if_neg hft] at hrp
      rw [hrp]
      cases hda : (accumulate nodes).2 c with
      | none =>
        simp only [ha, hda, Option.some.injEq]
        constructor
        · intro h
          exact absurd h (by simp)
        · rintro ⟨nd2, dav, hnd2, hne, hda2, -⟩
          exact absurd hda2 (by simp [hda])
      | some dav =>
        simp only [ha, hda, Option.some.injEq]
        constructor
        · intro h
          exact ⟨nd, dav, rfl, hft, rfl, h.symm⟩
        · rintro ⟨nd2, dav2, hnd2, hne, hda2, hr⟩
          obtain rfl : nd = nd2 := hnd2
          obtain rfl : dav = dav2 := hda2
          exact hr.symm

lemma flowOf_of_assoc {nodes : Field InternalNode} {c : Cell}
    {nd : InternalNode} (ha : assoc c nodes = some nd) :
    flowOf nodes c = nd.flow_to := by
  unfold flowOf getNode
  rw [ha]
  rfl

lemma sink_partition {nodes : Field InternalNode} (hac : AcyclicN nodes)
    (hcl : ∀ x ∈ fkeys nodes, flowOf nodes x ∈ fkeys nodes) :
    (fkeys nodes).toFinset =
      ((fkeys nodes).toFinset.filter
        (fun s => flowOf nodes s = s)).biUnion (upstream nodes) := by
  ext c
  constructor
  · intro hc
    rw [List.mem_toFinset] at hc
    obtain ⟨n, -, hsink⟩ := hac c hc
    refine Finset.mem_biUnion.mpr ⟨flowIter nodes n c, ?_, ?_⟩
    · exact Finset.mem_filter.mpr
        ⟨List.mem_toFinset.mpr (flowIter_mem_keys hcl hc n), hsink⟩
    · exact mem_upstream.mpr ⟨hc, (reachesW_iff hac hc).mpr ⟨n, rfl⟩⟩
  · intro hc
    obtain ⟨s, -, hcs⟩ := Finset.mem_biUnion.mp hc
    exact List.mem_toFinset.mpr (mem_upstream.mp hcs).1

/-- The routed 3-by-3 world, computed once: cell 0 is the unique sink and
every other cell flows one step toward it (first-eligible tie-breaks). -/
lemma route33 : routeAll g33 t33 =
    [(0, ⟨1, 0, 0⟩), (1, ⟨1, 0, -1⟩), (2, ⟨1, 1, -1⟩), (3, ⟨1, 0, -1⟩),
      (4, ⟨1, 1, -1⟩), (5, ⟨1, 2, -1⟩), (6, ⟨1, 3, -1⟩), (7, ⟨1, 4, -1⟩),
      (8, ⟨1, 5, -1⟩)] := by
  norm_num [routeAll, routeCell, routeStep, assoc, g33, t33]

lemma fkeys_filterMap_sublist {α β : Type} (F : Cell × α → Option (Cell × β))
    (hF : ∀ p q, F p = some q → q.1 = p.1) :
    ∀ m : Field α, List.Sublist (fkeys (m.filterMap F)) (fkeys m) := by
  intro m
  induction m with
  | nil => simp [fkeys]
  | cons p ps ih =>
    rw [List.filterMap_cons]
    cases hFp : F p with
    | none => exact ih.cons _
    | some q =>
      have hq : q.1 = p.1 := hF p q hFp
      show List.Sublist (fkeys (q :: ps.filterMap F)) (fkeys (p :: ps))
      rw [show fkeys (q :: ps.filterMap F) = q.1 :: fkeys (ps.filterMap F)
          from rfl,
        show fkeys (p :: ps) = p.1 :: fkeys ps from rfl, hq]
      exact ih.cons₂ _

lemma fkeys_filterMap_nodup {α β : Type} (F : Cell × α → Option (Cell × β))
    (hF : ∀ p q, F p = some q → q.1 = p.1) {m : Field α}
    (hnd : (fkeys m).Nodup) : (fkeys (m.filterMap F)).Nodup :=
  List.Nodup.sublist (fkeys_filterMap_sublist F hF m) hnd

lemma assoc_filter {α : Type} (p : Cell × α → Bool) {m : Field α}
    (hnd : (fkeys m).Nodup) (c : Cell) :
    assoc c (m.filter p) =
      (assoc c m).bind (fun v => if p (c, v) then some v else none) := by
  rw [← List.filterMap_eq_filter]
  rw [assoc_filterMap _ ?hF hnd c]
  case hF =>
    intro q r hr
    by_cases hq : p q
    · simp only [Option.guard, if_pos hq, Option.some.injEq] at hr
      rw [← hr]
    · simp only [Option.guard, if_neg hq] at hr
      exact Option.noConfusion hr
  cases hc : assoc c m with
  | none => rfl
  | some v =>
    rw [Option.some_bind, Option.some_bind]
    by_cases hv : p (c, v)
    · simp only [Option.guard, if_pos hv]
      rfl
    · simp only [Option.guard, if_neg hv]
      rfl

lemma flatFP_keyed (g : Geom) (grad : ℚ × ℚ → Option ℚ) (sea : ℚ)
    (f : ℚ → Option ℚ) :
    ∀ (p : Cell × ℚ) (q : Cell × ℚ),
      (if p.2 < sea then none
       else
        match grad (g.site p.1) with
        | none => none
        | some gv =>
          match f gv with
          | none => none
          | some habitability => some (p.1, habitability)) = some q →
      q.1 = p.1 := by
  intro p q hq
  by_cases hp : p.2 < sea
  · rw [if_pos hp] at hq
    exact Option.noConfusion hq
  · rw [if_neg hp] at hq
    cases hg : grad (g.site p.1) with
    | none =>
      rw [hg] at hq
      exact Option.noConfusion hq
    | some gv =>
      cases hf : f gv with
      | none =>
        simp only [hg, hf] at hq
        exact Option.noConfusion hq
      | some h =>
        simp only [hg, hf, Option.some.injEq] at hq
        rw [← hq]

lemma flatFirstPass_nodup (g : Geom) (grad : ℚ × ℚ → Option ℚ)
    (em : Field ℚ) (sea : ℚ) (f : ℚ → Option ℚ)
    (hnd : (fkeys em).Nodup) :
    (fkeys (flatFirstPass g grad em sea f)).Nodup := by
  unfold flatFirstPass
  exact fkeys_filterMap_nodup _ (flatFP_keyed g grad sea f) hnd

lemma assoc_flatFirstPass (g : Geom) (grad : ℚ × ℚ → Option ℚ)
    (em : Field ℚ) (sea : ℚ) (f : ℚ → Option ℚ)
    (hnd : (fkeys em).Nodup) (c : Cell) :
    assoc c (flatFirstPass g grad em sea f) =
      (assoc c em).bind (fun e =>
        if e < sea then none
        else
          match grad (g.site c) with
          | none => none
          | some gv => f gv) := by
  unfold flatFirstPass
  rw [assoc_filterMap _ (flatFP_keyed g grad sea f) hnd c]
  cases he : assoc c em with
  | none => rfl
  | some e =>
    rw [Option.some_bind, Option.some_bind]
    by_cases hp : e < sea
    · rw [if_pos hp, if_pos hp]
      rfl
    · rw [if_neg hp, if_neg hp]
      cases hg : grad (g.site c) with
      | none => rfl
      | some gv =>
        cases hf : f gv with
        | none => simp [hf]
        | some h => simp [hf]

lemma flatCond_eq (g : Geom) (grad : ℚ × ℚ → Option ℚ) (em : Field ℚ)
    (sea : ℚ) (f : ℚ → Option ℚ) (hnd : (fkeys em).Nodup) (c : Cell) :
    (assoc c (flatFirstPass g grad em sea f)).isSome =
      flatCond g grad em sea f c := by
  rw [assoc_flatFirstPass g grad em sea f hnd c]
  unfold flatCond
  cases he : assoc c em with
  | none => rfl
  | some e =>
    rw [Option.some_bind]
    by_cases hp : e < sea
    · simp [hp]
    · cases hg : grad (g.site c) with
      | none => simp [hp, hg]
      | some gv => simp [hp, hg]

lemma buildFlatnessMap_eq (g : Geom) (grad : ℚ × ℚ → Option ℚ)
    (em : Field ℚ) (minN : ℕ) (sea : ℚ) (f : ℚ → Option ℚ) :
    buildFlatnessMap g grad em minN sea f =
      if minN > 0 then
        (flatFirstPass g grad em sea f).filter (fun p =>
          ((g.neighbors p.1).filter
            (fun neighbor =>
              (assoc neighbor (flatFirstPass g grad em sea f)).isSome)).length
            ≥ minN)
      else flatFirstPass g grad em sea f := rfl

/-! # Claims -/

/-- **C7**: `DrainageBasinNode::from_strs` applied to `to_strings` returns
`Ok` of an equal node, and `to_strings` emits exactly `len_strs()` tokens in
the fixed field order (cell identity, flow target, river curve, then area,
drainage area, slope). -/
theorem c7_node_roundTrip (n : DrainageBasinNode) :
    nodeFromStrs (nodeToStrings n) = Except.ok n ∧
      (nodeToStrings n).length = nodeLenStrs := by
  obtain ⟨p, a, d, sl, f, r⟩ := n
  cases r with
  | path b => exact ⟨rfl, rfl⟩
  | point q => exact ⟨rfl, rfl⟩

lemma getNum_eq_ok {s : List Tok} {i : ℕ} {q : ℚ}
    (h : getNum s i = Except.ok q) : s.get? i = some (Tok.num q) := by
  unfold getNum at h
  cases hg : s.get? i with
  | none => rw [hg] at h; simp at h
  | some t =>
    rw [hg] at h
    cases t <;> simp [parseNum] at h
    rw [h]

/-- **C8 counterexample**: an unrecognized variant tag does NOT make
`Stream::from_strs` return an error — any first token other than `"Path"`
falls into the `Point` branch, so garbage-tagged tokens with two parsable
numbers silently load as a point. -/
theorem c8_counterexample :
    streamFromStrs
        [Tok.other, Tok.num 1, Tok.num 2, Tok.blank, Tok.blank, Tok.blank,
          Tok.blank] =
      Except.ok (Stream.point (1, 2)) := rfl

/-- **C8 amended**: `from_strs` never silently defaults a numeric field —
success implies every consumed numeric field was genuinely parsed from its
token — and entirely missing tokens fail with an out-of-bounds access (a
slice panic, not an error return); but an unrecognized variant tag is not
rejected: any non-`"Path"` tag is read as the `Point` variant. -/
theorem c8_amended :
    (∀ s v, streamFromStrs s = Except.ok v →
      (s.get? 0 = some Tok.pathTag ∧
        ∃ x1 y1 x2 y2 x3 y3 : ℚ,
          s.get? 1 = some (Tok.num x1) ∧ s.get? 2 = some (Tok.num y1) ∧
          s.get? 3 = some (Tok.num x2) ∧ s.get? 4 = some (Tok.num y2) ∧
          s.get? 5 = some (Tok.num x3) ∧ s.get? 6 = some (Tok.num y3) ∧
          v = Stream.path ⟨(x1, y1), (x2, y2), (x3, y3)⟩) ∨
      (∃ t, s.get? 0 = some t ∧ t ≠ Tok.pathTag ∧
        ∃ x y : ℚ, s.get? 1 = some (Tok.num x) ∧
          s.get? 2 = some (Tok.num y) ∧ v = Stream.point (x, y))) ∧
    (∀ s v, nodeFromStrs s = Except.ok v →
      s.get? 9 = some (Tok.num v.area) ∧
      s.get? 10 = some (Tok.num v.drainage_area) ∧
      s.get? 11 = some (Tok.num v.slope)) ∧
    streamFromStrs [] = Except.error LoadErr.oob ∧
    nodeFromStrs [] = Except.error LoadErr.oob := by
  refine ⟨?_, ?_, rfl, rfl⟩
  · intro s v h
    unfold streamFromStrs at h
    cases hg : s.get? 0 with
    | none => simp only [hg] at h; exact Except.noConfusion h
    | some t =>
      simp only [hg] at h
      by_cases ht : t = Tok.pathTag
      · rw [if_pos ht] at h
        left
        cases h1 : getNum s 1 with
        | error e => simp only [h1] at h; exact Except.noConfusion h
        | ok x1 =>
        simp only [h1] at h
        cases h2 : getNum s 2 with
        | error e => simp only [h2] at h; exact Except.noConfusion h
        | ok y1 =>
        simp only [h2] at h
        cases h3 : getNum s 3 with
        | error e => simp only [h3] at h; exact Except.noConfusion h
        | ok x2 =>
        simp only [h3] at h
        cases h4 : getNum s 4 with
        | error e => simp only [h4] at h; exact Except.noConfusion h
        | ok y2 =>
        simp only [h4] at h
        cases h5 : getNum s 5 with
        | error e => simp only [h5] at h; exact Except.noConfusion h
        | ok x3 =>
        simp only [h5] at h
        cases h6 : getNum s 6 with
        | error e => simp only [h6] at h; exact Except.noConfusion h
        | ok y3 =>
        simp only [h6, Except.ok.injEq] at h
        subst ht
        exact ⟨rfl, x1, y1, x2, y2, x3, y3, getNum_eq_ok h1, getNum_eq_ok h2,
          getNum_eq_ok h3, getNum_eq_ok h4, getNum_eq_ok h5, getNum_eq_ok h6,
          h.symm⟩
      · rw [if_neg ht] at h
        right
        cases h1 : getNum s 1 with
        | error e => simp only [h1] at h; exact Except.noConfusion h
        | ok x =>
        simp only [h1] at h
        cases h2 : getNum s 2 with
        | error e => simp only [h2] at h; exact Except.noConfusion h
        | ok y =>
        simp only [h2, Except.ok.injEq] at h
        exact ⟨t, rfl, ht, x, y, getNum_eq_ok h1, getNum_eq_ok h2, h.symm⟩
  · intro s v h
    unfold nodeFromStrs at h
    cases h1 : particleFromStrs (s.take particleLenStrs) with
    | error e => simp only [h1] at h; exact Except.noConfusion h
    | ok particle =>
    simp only [h1] at h
    cases h2 : particleFromStrs ((s.drop particleLenStrs).take particleLenStrs) with
    | error e => simp only [h2] at h; exact Except.noConfusion h
    | ok flow_to =>
    simp only [h2] at h
    cases h3 : streamFromStrs ((s.drop (particleLenStrs * 2)).take streamLenStrs) with
    | error e => simp only [h3] at h; exact Except.noConfusion h
    | ok main_river =>
    simp only [h3] at h
    cases h4 : getNum s (particleLenStrs * 2 + streamLenStrs) with
    | error e => simp only [h4] at h; exact Except.noConfusion h
    | ok area =>
    simp only [h4] at h
    cases h5 : getNum s (particleLenStrs * 2 + streamLenStrs + 1) with
    | error e => simp only [h5] at h; exact Except.noConfusion h
    | ok drainage_area =>
    simp only [h5] at h
    cases h6 : getNum s (particleLenStrs * 2 + streamLenStrs + 2) with
    | error e => simp only [h6] at h; exact Except.noConfusion h
    | ok slope =>
    simp only [h6, Except.ok.injEq] at h
    subst h
    exact ⟨getNum_eq_ok h4, getNum_eq_ok h5, getNum_eq_ok h6⟩

/-- Witness for C8: the amended theorem fires on a concrete record. -/
theorem c8_amended_witness :
    tokListW.get? 9 = some (Tok.num nodeW.area) ∧
      tokListW.get? 10 = some (Tok.num nodeW.drainage_area) ∧
      tokListW.get? 11 = some (Tok.num nodeW.slope) :=
  c8_amended.2.1 tokListW nodeW rfl

/-- **C1 counterexample**: on a flat two-cell field the router makes the two
cells flow to each other (equal elevation is eligible), so iterating
`flow_to` from cell 0 never reaches a self-flowing cell within N = 2 steps —
the flow graph has a 2-cycle. -/
theorem c1_counterexample :
    (List.range (tFlat.length + 1)).all
      (fun k =>
        !(flowOf (routeAll gFlat tFlat) (flowIter (routeAll gFlat tFlat) k 0)
            == flowIter (routeAll gFlat tFlat) k 0)) = true := by decide

/-- **C4 counterexample**: on the flat two-cell plateau, cell 0 is NOT its
own sink (it flows to cell 1), and it receives no drainage record at all, so
`drainage_area(0) = area(0)` fails as well. -/
theorem c4_counterexample :
    flowOf (routeAll gFlat tFlat) 0 = 1 ∧
      assoc 0 (buildDrainageBasin gFlat tFlat) = none := by decide

/-- **C4 amended**: on a flat elevation field every cell routes with slope 0
to the FIRST Voronoi neighbor present in the field, and is its own sink
exactly when no neighbor is present. -/
theorem c4_amended (g : Geom) (t : Field ℚ) (E : ℚ)
    (hflat : ∀ p ∈ t, p.2 = E) (c : Cell) (ec : ℚ)
    (hc : assoc c t = some ec) :
    routeCell g t c ec =
      ⟨g.area c,
        ((g.neighbors c).find? (fun nb => (assoc nb t).isSome)).getD c, 0⟩ ∧
    flowOf (routeAll g t) c =
      ((g.neighbors c).find? (fun nb => (assoc nb t).isSome)).getD c ∧
    (getNode (routeAll g t) c).slope = 0 := by
  have hec : ec = E := hflat (c, ec) (assoc_mem hc)
  subst hec
  have helig : ∀ nb, eligible t ec nb = (assoc nb t).isSome := by
    intro nb
    unfold eligible
    cases hnb : assoc nb t with
    | none => simp
    | some e2 =>
      have he2 : e2 = ec := hflat (nb, e2) (assoc_mem hnb)
      subst he2
      simp
  have hslope : ∀ nb, eligible t ec nb = true → slopeTo g t c ec nb = 0 := by
    intro nb hnb
    unfold eligible at hnb
    cases ha : assoc nb t with
    | none => rw [ha] at hnb; simp at hnb
    | some e2 =>
      have he2 : e2 = ec := hflat (nb, e2) (assoc_mem ha)
      subst he2
      simp [slopeTo, ha]
  have hfilter : eligList t ec (g.neighbors c) =
      (g.neighbors c).filter (fun nb => (assoc nb t).isSome) :=
    filter_ext helig (g.neighbors c)
  rcases routeFold_spec g t c ec (g.neighbors c) with
    ⟨h1, h2⟩ | ⟨fr, l1, l2, h1, h2, h3, h4⟩
  · rw [hfilter] at h1
    have hfind : (g.neighbors c).find? (fun nb => (assoc nb t).isSome) = none := by
      rw [List.find?_eq_none]
      intro x hx
      simpa using List.filter_eq_nil_iff.mp h1 x hx
    have hrc : routeCell g t c ec = ⟨g.area c, c, 0⟩ := by
      unfold routeCell; rw [h2]
    refine ⟨by rw [hrc, hfind]; rfl, ?_, ?_⟩
    · unfold flowOf
      rw [getNode_routeAll g t c ec hc, hrc, hfind]
      rfl
    · rw [getNode_routeAll g t c ec hc, hrc]
  · have hl1 : l1 = [] := by
      cases l1 with
      | nil => rfl
      | cons a as =>
        exfalso
        have hmem_a : a ∈ eligList t ec (g.neighbors c) := by rw [h1]; simp
        have hmem_fr : fr ∈ eligList t ec (g.neighbors c) := by rw [h1]; simp
        have ha : eligible t ec a = true := List.of_mem_filter hmem_a
        have hfr : eligible t ec fr = true := List.of_mem_filter hmem_fr
        have hlt := h3 a (by simp)
        rw [hslope a ha, hslope fr hfr] at hlt
        exact lt_irrefl 0 hlt
    subst hl1
    simp only [List.nil_append] at h1
    have hfr_elig : eligible t ec fr = true :=
      List.of_mem_filter (show fr ∈ eligList t ec (g.neighbors c) by rw [h1]; simp)
    have hfind : (g.neighbors c).find? (fun nb => (assoc nb t).isSome) = some fr := by
      apply find?_of_filter_cons
      rw [← hfilter]
      exact h1
    have hrc : routeCell g t c ec = ⟨g.area c, fr, 0⟩ := by
      unfold routeCell
      rw [h2, hslope fr hfr_elig]
    refine ⟨by rw [hrc, hfind]; rfl, ?_, ?_⟩
    · unfold flowOf
      rw [getNode_routeAll g t c ec hc, hrc, hfind]
      rfl
    · rw [getNode_routeAll g t c ec hc, hrc]

/-- Witness for C4: the amended flat-field characterization at the concrete
two-cell plateau. -/
theorem c4_amended_witness :
    routeCell gFlat tFlat 0 5 =
      ⟨gFlat.area 0,
        ((gFlat.neighbors 0).find?
          (fun nb => (assoc nb tFlat).isSome)).getD 0, 0⟩ ∧
    flowOf (routeAll gFlat tFlat) 0 =
      ((gFlat.neighbors 0).find? (fun nb => (assoc nb tFlat).isSome)).getD 0 ∧
    (getNode (routeAll gFlat tFlat) 0).slope = 0 :=
  c4_amended gFlat tFlat 5 (by decide) 0 5 (by decide)

/-- **C5**: the flow router keeps exactly the in-field, not-higher neighbors;
among them it selects the first neighbor attaining the algebraically largest
slope (strict `>` against the running best, so the first encountered wins
ties); with no eligible neighbor the cell is a sink with slope 0. -/
theorem c5_flow_router (g : Geom) (t : Field ℚ) (c : Cell) (elev : ℚ) :
    (∀ nb, eligible t elev nb = true ↔
      ∃ en, assoc nb t = some en ∧ en ≤ elev) ∧
    (eligList t elev (g.neighbors c) = [] →
      routeCell g t c elev = ⟨g.area c, c, 0⟩) ∧
    (eligList t elev (g.neighbors c) ≠ [] →
      ∃ fr l1 l2, eligList t elev (g.neighbors c) = l1 ++ fr :: l2 ∧
        routeCell g t c elev = ⟨g.area c, fr, slopeTo g t c elev fr⟩ ∧
        (∀ u ∈ l1, slopeTo g t c elev u < slopeTo g t c elev fr) ∧
        (∀ u ∈ l2, slopeTo g t c elev u ≤ slopeTo g t c elev fr)) := by
  refine ⟨?_, ?_, ?_⟩
  · intro nb
    unfold eligible
    cases ha : assoc nb t with
    | none => simp
    | some en => simp [not_lt]
  · intro h
    rcases routeFold_spec g t c elev (g.neighbors c) with
      ⟨h1, h2⟩ | ⟨fr, l1, l2, h1, h2, h3, h4⟩
    · unfold routeCell; rw [h2]
    · rw [h] at h1
      exact absurd h1.symm (by simp)
  · intro h
    rcases routeFold_spec g t c elev (g.neighbors c) with
      ⟨h1, h2⟩ | ⟨fr, l1, l2, h1, h2, h3, h4⟩
    · exact absurd h1 h
    · refine ⟨fr, l1, l2, h1, ?_, h3, h4⟩
      unfold routeCell; rw [h2]

/-- Witness for C5 at a concrete cell with one uphill and two downhill
neighbors: the gentler downhill neighbor (cell 3) wins. -/
theorem c5_flow_router_witness :
    eligList tW5 10 (gW5.neighbors 0) ≠ [] ∧
    ∃ fr l1 l2, eligList tW5 10 (gW5.neighbors 0) = l1 ++ fr :: l2 ∧
      routeCell gW5 tW5 0 10 = ⟨gW5.area 0, fr, slopeTo gW5 tW5 0 10 fr⟩ ∧
      (∀ u ∈ l1, slopeTo gW5 tW5 0 10 u < slopeTo gW5 tW5 0 10 fr) ∧
      (∀ u ∈ l2, slopeTo gW5 tW5 0 10 u ≤ slopeTo gW5 tW5 0 10 fr) :=
  ⟨by decide, (c5_flow_router gW5 tW5 0 10).2.2 (by decide)⟩

/-- **C1 amended**: on an elevation field with pairwise-distinct elevations,
iterating `flow_to` from any cell reaches a self-flowing sink within at most
N steps (N = cell count); it is equal elevations that permit the cycles of
the counterexample. -/
theorem c1_amended (g : Geom) (t : Field ℚ)
    (hinj : ∀ p ∈ t, ∀ q ∈ t, p.2 = q.2 → p.1 = q.1) (c : Cell)
    (hc : c ∈ fkeys t) :
    ∃ n ≤ t.length,
      flowOf (routeAll g t) (flowIter (routeAll g t) n c) =
        flowIter (routeAll g t) n c := by
  by_contra hcon
  push_neg at hcon
  have step : ∀ x ∈ fkeys t, flowOf (routeAll g t) x ≠ x →
      flowOf (routeAll g t) x ∈ fkeys t ∧
        elevOf t (flowOf (routeAll g t) x) < elevOf t x := by
    intro x hx hne
    obtain ⟨ex, hex⟩ := mem_fkeys_exists_assoc hx
    rcases router_flow_elev g t x ex hex with h | ⟨ef, hef, hle⟩
    · exact absurd h hne
    · refine ⟨assoc_mem_fkeys hef, ?_⟩
      rcases lt_or_eq_of_le hle with h | h
      · simpa [elevOf, hex, hef] using h
      · exact absurd
          (hinj (flowOf (routeAll g t) x, ef) (assoc_mem hef) (x, ex)
            (assoc_mem hex) h) hne
  have chain : ∀ k, k ≤ t.length + 1 →
      flowIter (routeAll g t) k c ∈ fkeys t ∧
        ∀ j, j < k →
          elevOf t (flowIter (routeAll g t) k c) <
            elevOf t (flowIter (routeAll g t) j c) := by
    intro k
    induction k with
    | zero => exact fun _ => ⟨hc, fun j hj => absurd hj (Nat.not_lt_zero j)⟩
    | succ k ih =>
      intro hk
      obtain ⟨hmem, hdec⟩ := ih (by omega)
      have hns : flowOf (routeAll g t) (flowIter (routeAll g t) k c) ≠
          flowIter (routeAll g t) k c := hcon k (by omega)
      obtain ⟨hmem2, hlt⟩ := step _ hmem hns
      have hiter : flowIter (routeAll g t) (k + 1) c =
          flowOf (routeAll g t) (flowIter (routeAll g t) k c) := by
        unfold flowIter
        rw [Function.iterate_succ_apply']
      refine ⟨by rw [hiter]; exact hmem2, ?_⟩
      intro j hj
      rcases Nat.lt_succ_iff_lt_or_eq.mp hj with hj2 | hj2
      · calc elevOf t (flowIter (routeAll g t) (k + 1) c) <
              elevOf t (flowIter (routeAll g t) k c) := by
              rw [hiter]; exact hlt
          _ < elevOf t (flowIter (routeAll g t) j c) := hdec j hj2
      · subst hj2
        rw [hiter]
        exact hlt
  have hinj_iter : Set.InjOn (fun i => flowIter (routeAll g t) i c)
      (Finset.range (t.length + 1)) := by
    intro i hi j hj hij
    simp only [Finset.coe_range, Set.mem_Iio] at hi hj
    simp only at hij
    rcases lt_trichotomy i j with h | h | h
    · exfalso
      have hx := (chain j (by omega)).2 i h
      rw [hij] at hx
      exact lt_irrefl _ hx
    · exact h
    · exfalso
      have hx := (chain i (by omega)).2 j h
      rw [hij.symm] at hx
      exact lt_irrefl _ hx
  have hsub : (Finset.range (t.length + 1)).image
      (fun i => flowIter (routeAll g t) i c) ⊆ (fkeys t).toFinset := by
    intro x hx
    obtain ⟨i, hi, rfl⟩ := Finset.mem_image.mp hx
    rw [List.mem_toFinset]
    exact (chain i (by simp at hi; omega)).1
  have hcard1 :
      ((Finset.range (t.length + 1)).image
        (fun i => flowIter (routeAll g t) i c)).card = t.length + 1 := by
    rw [Finset.card_image_of_injOn hinj_iter, Finset.card_range]
  have hcard2 : (fkeys t).toFinset.card ≤ t.length := by
    calc (fkeys t).toFinset.card ≤ (fkeys t).length := List.toFinset_card_le _
      _ = t.length := by simp [fkeys]
  have := Finset.card_le_card hsub
  omega

/-- Witness for C1: the amended acyclicity bound at a concrete field with
distinct elevations. -/
theorem c1_amended_witness :
    ∃ n ≤ tW5.length,
      flowOf (routeAll gW5 tW5) (flowIter (routeAll gW5 tW5) n 0) =
        flowIter (routeAll gW5 tW5) n 0 :=
  c1_amended gW5 tW5 (by decide) 0 (by decide)

/-- **C6**: every cell holding a record in the output of
`build_drainage_basin` is a non-sink — its stored `flow_to` differs from the
cell itself, the flow graph agrees, and its `main_river` is the stream built
through its two downstream sites — and every sink of the flow graph is
absent from the output map. -/
theorem c6_records_nonsink (g : Geom) (t : Field ℚ)
    (hnd : (fkeys t).Nodup) :
    (∀ c r, assoc c (buildDrainageBasin g t) = some r →
      r.flow_to ≠ c ∧ r.flow_to = flowOf (routeAll g t) c ∧
      r.main_river = streamNew (g.site c) (g.site (flowOf (routeAll g t) c))
        (g.site (flowOf (routeAll g t) (flowOf (routeAll g t) c)))) ∧
    (∀ c, flowOf (routeAll g t) c = c →
      assoc c (buildDrainageBasin g t) = none) := by
  have hnd' : (fkeys (routeAll g t)).Nodup := by
    rw [fkeys_routeAll]; exact hnd
  constructor
  · intro c r hr
    rw [show buildDrainageBasin g t = assemble g (routeAll g t) from rfl,
      assemble_some hnd'] at hr
    obtain ⟨nd, dav, ha, hft, hda, hrec⟩ := hr
    have hfl : flowOf (routeAll g t) c = nd.flow_to := flowOf_of_assoc ha
    subst hrec
    exact ⟨hft, by rw [hfl], by rw [hfl]⟩
  · intro c hsink
    cases hr : assoc c (buildDrainageBasin g t) with
    | none => rfl
    | some r =>
      rw [show buildDrainageBasin g t = assemble g (routeAll g t) from rfl,
        assemble_some hnd'] at hr
      obtain ⟨nd, dav, ha, hft, -, -⟩ := hr
      exact absurd ((flowOf_of_assoc ha).symm.trans hsink) hft

theorem c6_records_nonsink_witness :
    (fkeys tW2).Nodup ∧
    ((∀ c r, assoc c (buildDrainageBasin gW2 tW2) = some r →
      r.flow_to ≠ c ∧ r.flow_to = flowOf (routeAll gW2 tW2) c ∧
      r.main_river = streamNew (gW2.site c)
        (gW2.site (flowOf (routeAll gW2 tW2) c))
        (gW2.site (flowOf (routeAll gW2 tW2) (flowOf (routeAll gW2 tW2) c)))) ∧
    (∀ c, flowOf (routeAll gW2 tW2) c = c →
      assoc c (buildDrainageBasin gW2 tW2) = none)) :=
  ⟨by decide, c6_records_nonsink gW2 tW2 (by decide)⟩

/-- **C2**: under an acyclic flow graph (and nonnegative cell areas), every
record of `build_drainage_basin` satisfies the conservation invariant: its
contributors (cells flowing into it, other than itself) all hold records
whose drainage area is their upstream area, the record's drainage area is
its own area plus the sum of the contributors' drainage areas, and hence
the drainage area dominates the cell's own area. -/
theorem c2_drainage_invariant (g : Geom) (t : Field ℚ)
    (hnd : (fkeys t).Nodup) (hac : AcyclicN (routeAll g t))
    (hnonneg : ∀ c ∈ fkeys t, 0 ≤ g.area c) :
    ∀ c r, assoc c (buildDrainageBasin g t) = some r →
      (∀ u ∈ contribs (routeAll g t) c,
        ∃ ru, assoc u (buildDrainageBasin g t) = some ru ∧
          ru.drainage_area = subArea (routeAll g t) u) ∧
      r.drainage_area =
        r.area + Finset.sum (contribs (routeAll g t) c)
          (subArea (routeAll g t)) ∧
      r.area ≤ r.drainage_area := by
  have hnd' : (fkeys (routeAll g t)).Nodup := by
    rw [fkeys_routeAll]; exact hnd
  have hcl := routeAll_closed g t
  intro c r hr
  rw [show buildDrainageBasin g t = assemble g (routeAll g t) from rfl,
    assemble_some hnd'] at hr
  obtain ⟨nd, dav, ha, hft, hda, hrec⟩ := hr
  have hck : c ∈ fkeys (routeAll g t) := assoc_mem_fkeys ha
  have hfl : flowOf (routeAll g t) c = nd.flow_to := flowOf_of_assoc ha
  have hns : flowOf (routeAll g t) c ≠ c := by rw [hfl]; exact hft
  have hchar := (accumulate_char hnd' hcl hac).1 c hck hns
  have hdav : dav = subArea (routeAll g t) c := by
    rw [hchar] at hda
    exact (Option.some.injEq _ _ ▸ hda).symm
  have harea : areaOf (routeAll g t) c = nd.area := by
    unfold areaOf getNode
    rw [ha]
    rfl
  have hsub := subArea_eq hac hcl hck
  subst hrec
  refine ⟨?_, ?_, ?_⟩
  · intro u hu
    obtain ⟨huk, huf, hune⟩ := mem_contribs.mp hu
    have huns : flowOf (routeAll g t) u ≠ u := by
      rw [huf]; exact fun h => hune h.symm
    obtain ⟨ndu, hau⟩ := mem_fkeys_exists_assoc huk
    have hflu : flowOf (routeAll g t) u = ndu.flow_to := flowOf_of_assoc hau
    have hftu : ndu.flow_to ≠ u := by rw [← hflu]; exact huns
    have hdau := (accumulate_char hnd' hcl hac).1 u huk huns
    refine ⟨⟨u, ndu.area, subArea (routeAll g t) u, ndu.slope, ndu.flow_to,
      streamNew (g.site u) (g.site ndu.flow_to)
        (g.site (flowOf (routeAll g t) ndu.flow_to))⟩, ?_, rfl⟩
    rw [show buildDrainageBasin g t = assemble g (routeAll g t) from rfl,
      assemble_some hnd']
    exact ⟨ndu, subArea (routeAll g t) u, hau, hftu, hdau, rfl⟩
  · show dav = nd.area + _
    rw [hdav, hsub, harea]
  · show nd.area ≤ dav
    rw [hdav, ← harea]
    unfold subArea
    refine Finset.single_le_sum ?_ (self_mem_upstream hck)
    intro i hi
    have hik : i ∈ fkeys (routeAll g t) := (mem_upstream.mp hi).1
    rw [fkeys_routeAll] at hik
    obtain ⟨ei, hei⟩ := mem_fkeys_exists_assoc hik
    rw [areaOf_routeAll g t i ei hei]
    exact hnonneg i hik

theorem c2_drainage_invariant_witness :
    ((fkeys tW2).Nodup ∧ AcyclicN (routeAll gW2 tW2) ∧
      (∀ c ∈ fkeys tW2, 0 ≤ gW2.area c) ∧
      assoc 0 (buildDrainageBasin gW2 tW2) =
        some ((assoc 0 (buildDrainageBasin gW2 tW2)).getD dummyNode)) ∧
    ((∀ u ∈ contribs (routeAll gW2 tW2) 0,
        ∃ ru, assoc u (buildDrainageBasin gW2 tW2) = some ru ∧
          ru.drainage_area = subArea (routeAll gW2 tW2) u) ∧
      ((assoc 0 (buildDrainageBasin gW2 tW2)).getD dummyNode).drainage_area =
        ((assoc 0 (buildDrainageBasin gW2 tW2)).getD dummyNode).area +
          Finset.sum (contribs (routeAll gW2 tW2) 0)
            (subArea (routeAll gW2 tW2)) ∧
      ((assoc 0 (buildDrainageBasin gW2 tW2)).getD dummyNode).area ≤
        ((assoc 0 (buildDrainageBasin gW2 tW2)).getD dummyNode).drainage_area) :=
  ⟨⟨by decide, by unfold AcyclicN; decide, by decide, rfl⟩,
    c2_drainage_invariant gW2 tW2 (by decide) (by unfold AcyclicN; decide)
      (by decide) 0 ((assoc 0 (buildDrainageBasin gW2 tW2)).getD dummyNode)
      rfl⟩

/-- **C3 counterexample**: on the 3-by-3 grid with strictly decreasing
elevation toward corner cell 0, cell 0 is the unique sink of the flow graph,
yet the output of `build_drainage_basin` holds NO record for it, so the sum
of the drainage areas of the sink records of the output (an empty sum) does
not equal the total area of the nine cells. -/
theorem c3_counterexample :
    (fkeys t33).filter (fun c => flowOf (routeAll g33 t33) c = c) = [0] ∧
    assoc 0 (buildDrainageBasin g33 t33) = none ∧
    ((fkeys t33).map (areaOf (routeAll g33 t33))).sum ≠
      (((fkeys t33).filter
          (fun c => flowOf (routeAll g33 t33) c = c)).map
        (fun s => ((assoc s (buildDrainageBasin g33 t33)).map
          DrainageBasinNode.drainage_area).getD 0)).sum := by
  have hb : buildDrainageBasin g33 t33 = assemble g33 (routeAll g33 t33) :=
    rfl
  have hfilter :
      (fkeys t33).filter (fun c => flowOf (routeAll g33 t33) c = c) = [0] := by
    rw [route33]
    decide
  have hnone : assoc 0 (buildDrainageBasin g33 t33) = none := by
    rw [hb, route33]
    decide
  refine ⟨hfilter, hnone, ?_⟩
  rw [hfilter]
  simp only [List.map_cons, List.map_nil, hnone, Option.map_none',
    Option.getD_none, List.sum_cons, List.sum_nil]
  rw [route33]
  norm_num [fkeys, t33, areaOf, getNode, assoc]

/-- **C3 amended**: under an acyclic flow graph, total area is conserved
into the sinks of the accumulation pass, but each sink's own area must be
added back: the sum of all cell areas equals the sum, over the sinks of the
flow graph, of the sink's internal accumulated drainage value (0 when the
sink has no contributor) plus the sink's own area.  (The output map itself
carries no sink records at all.) -/
theorem c3_conservation_amended (g : Geom) (t : Field ℚ)
    (hnd : (fkeys t).Nodup) (hac : AcyclicN (routeAll g t)) :
    ((fkeys t).map (areaOf (routeAll g t))).sum =
      Finset.sum
        ((fkeys t).toFinset.filter
          (fun s => flowOf (routeAll g t) s = s))
        (fun s => ((accumulate (routeAll g t)).2 s).getD 0 +
          areaOf (routeAll g t) s) := by
  have hfk := fkeys_routeAll g t
  have hnd' : (fkeys (routeAll g t)).Nodup := by rw [hfk]; exact hnd
  have hcl := routeAll_closed g t
  have hchar := (accumulate_char hnd' hcl hac).2
  have hlist : ((fkeys t).map (areaOf (routeAll g t))).sum =
      Finset.sum (fkeys (routeAll g t)).toFinset (areaOf (routeAll g t)) := by
    rw [hfk]
    exact (List.sum_toFinset _ hnd).symm
  rw [hlist, ← hfk]
  conv_lhs => rw [sink_partition hac hcl]
  rw [Finset.sum_biUnion ?hdisj]
  case hdisj =>
    intro s1 h1 s2 h2 hne
    refine Finset.disjoint_left.mpr ?_
    intro v hv1 hv2
    apply hne
    obtain ⟨hv1k, hr1⟩ := mem_upstream.mp hv1
    obtain ⟨hv2k, hr2⟩ := mem_upstream.mp hv2
    rw [reachesW_iff hac hv1k] at hr1
    rw [reachesW_iff hac hv2k] at hr2
    rw [Finset.mem_coe, Finset.mem_filter] at h1 h2
    exact reaches_sink_unique h1.2 h2.2 hr1 hr2
  apply Finset.sum_congr rfl
  intro s hs
  obtain ⟨hsk', hsink⟩ := Finset.mem_filter.mp hs
  have hsk : s ∈ fkeys (routeAll g t) := List.mem_toFinset.mp hsk'
  have hda := hchar s hsk hsink
  by_cases hce : contribs (routeAll g t) s = ∅
  · rw [hda, if_pos hce]
    simp only [Option.getD_none]
    show Finset.sum (upstream (routeAll g t) s) (areaOf (routeAll g t)) = _
    rw [upstream_eq hac hcl hsk, hce]
    simp
  · rw [hda, if_neg hce]
    simp only [Option.getD_some]
    show Finset.sum (upstream (routeAll g t) s) (areaOf (routeAll g t)) = _
    show subArea (routeAll g t) s = _
    ring

theorem c3_conservation_amended_witness :
    ((fkeys tW2).Nodup ∧ AcyclicN (routeAll gW2 tW2)) ∧
    ((fkeys tW2).map (areaOf (routeAll gW2 tW2))).sum =
      Finset.sum
        ((fkeys tW2).toFinset.filter
          (fun s => flowOf (routeAll gW2 tW2) s = s))
        (fun s => ((accumulate (routeAll gW2 tW2)).2 s).getD 0 +
          areaOf (routeAll gW2 tW2) s) :=
  ⟨⟨by decide, by unfold AcyclicN; decide⟩,
    c3_conservation_amended gW2 tW2 (by decide) (by unfold AcyclicN; decide)⟩

/-- **C9**: a cell carries a value in `build_flatness_map` exactly when its
elevation is present and at or above sea level, the gradient estimate at its
site is defined, the caller's gradient-to-flatness function returns `Some`,
and — when `minimum_neighbor_num > 0` — at least that many of its Voronoi
neighbors satisfy the same three conditions; the stored value is exactly the
`Some`-value of the flatness function, and excluded cells are absent. -/
theorem c9_flatness_membership (g : Geom) (grad : ℚ × ℚ → Option ℚ)
    (em : Field ℚ) (minN : ℕ) (sea : ℚ) (f : ℚ → Option ℚ)
    (hnd : (fkeys em).Nodup) (c : Cell) (v : ℚ) :
    assoc c (buildFlatnessMap g grad em minN sea f) = some v ↔
      (∃ e, assoc c em = some e ∧ ¬ e < sea ∧
        ∃ gv, grad (g.site c) = some gv ∧ f gv = some v) ∧
      (0 < minN →
        minN ≤ ((g.neighbors c).filter (flatCond g grad em sea f)).length) := by
  have hfp : ∀ w, assoc c (flatFirstPass g grad em sea f) = some w ↔
      ∃ e, assoc c em = some e ∧ ¬ e < sea ∧
        ∃ gv, grad (g.site c) = some gv ∧ f gv = some w := by
    intro w
    rw [assoc_flatFirstPass g grad em sea f hnd c]
    cases he : assoc c em with
    | none => simp
    | some e =>
      rw [Option.some_bind]
      constructor
      · intro h
        by_cases hp : e < sea
        · rw [if_pos hp] at h
          exact absurd h (by simp)
        · rw [if_neg hp] at h
          cases hg : grad (g.site c) with
          | none =>
            rw [hg] at h
            exact absurd h (by simp)
          | some gv =>
            rw [hg] at h
            exact ⟨e, rfl, hp, gv, rfl, h⟩
      · rintro ⟨e2, he2, hp, gv, hg, hf⟩
        obtain rfl : e = e2 := Option.some.inj he2
        rw [if_neg hp, hg]
        exact hf
  have hnd1 := flatFirstPass_nodup g grad em sea f hnd
  rw [buildFlatnessMap_eq]
  by_cases hmn : minN > 0
  · rw [if_pos hmn]
    rw [assoc_filter _ hnd1 c]
    have hcnt : ((g.neighbors c).filter
        (fun neighbor =>
          (assoc neighbor (flatFirstPass g grad em sea f)).isSome)) =
        ((g.neighbors c).filter (flatCond g grad em sea f)) :=
      filter_ext (fun nb => flatCond_eq g grad em sea f hnd nb) _
    cases hfpc : assoc c (flatFirstPass g grad em sea f) with
    | none =>
      simp only [Option.none_bind]
      constructor
      · intro h
        exact absurd h (by simp)
      · rintro ⟨hconds, -⟩
        have h2 := (hfp v).mpr hconds
        rw [hfpc] at h2
        exact absurd h2 (by simp)
    | some w =>
      rw [Option.some_bind]
      by_cases hge : minN ≤
          ((g.neighbors c).filter (flatCond g grad em sea f)).length
      · rw [if_pos (by simpa [hcnt] using hge)]
        simp only [Option.some.injEq]
        constructor
        · intro h
          subst h
          exact ⟨(hfp w).mp hfpc, fun _ => hge⟩
        · rintro ⟨hconds, -⟩
          have h2 := (hfp v).mpr hconds
          rw [hfpc] at h2
          exact Option.some.inj h2
      · rw [if_neg (by simpa [hcnt] using hge)]
        constructor
        · intro h
          exact absurd h (by simp)
        · rintro ⟨-, himp⟩
          exact absurd (himp hmn) hge
  · rw [if_neg hmn]
    rw [hfp v]
    constructor
    · intro h
      exact ⟨h, fun h0 => absurd h0 hmn⟩
    · rintro ⟨h, -⟩
      exact h

theorem c9_flatness_membership_witness :
    (fkeys emW).Nodup ∧
    (assoc 0 (buildFlatnessMap gF3 gradW emW 1 1 flatW) = some 0 ↔
      (∃ e, assoc 0 emW = some e ∧ ¬ e < 1 ∧
        ∃ gv, gradW (gF3.site 0) = some gv ∧ flatW gv = some 0) ∧
      (0 < 1 →
        1 ≤ ((gF3.neighbors 0).filter (flatCond gF3 gradW emW 1 flatW)).length)) :=
  ⟨by decide, c9_flatness_membership gF3 gradW emW 1 1 flatW (by decide) 0 0⟩

/-- **C10**: `collides_with_river(x, y)` is true exactly when some cell of
the spatial pre-filter (radius 2 × cell scale around the query point) holds
a record whose river width is at or above the ignoreable-width threshold and
whose stream curve the point collides with at that width; consequently, once
`river_ignoreable_width_strength` exceeds river width / cell scale for every
candidate record, the query returns false. -/
theorem c10_collides_with_river (g : Geom) (sqrtF : ℚ → ℚ)
    (project : QBez → ℚ × ℚ → ℚ) (inRadius : ℚ → ℚ → ℚ → List Cell)
    (m : DrainageMap) (x y : ℚ) :
    (m.collidesWithRiver g sqrtF project inRadius x y = true ↔
      ∃ c ∈ inRadius x y (g.scale * 2), ∃ nd,
        assoc c m.particle_map = some nd ∧
        ¬ riverWidth sqrtF g.scale nd m.river_strength <
          m.riverIgnoreableWidth g ∧
        nd.main_river.collides project x y
          (riverWidth sqrtF g.scale nd m.river_strength) = true) ∧
    (0 < g.scale →
      (∀ c ∈ inRadius x y (g.scale * 2), ∀ nd,
        assoc c m.particle_map = some nd →
          riverWidth sqrtF g.scale nd m.river_strength / g.scale <
            m.river_ignoreable_width_strength) →
      m.collidesWithRiver g sqrtF project inRadius x y = false) := by
  have hiff : m.collidesWithRiver g sqrtF project inRadius x y = true ↔
      ∃ c ∈ inRadius x y (g.scale * 2), ∃ nd,
        assoc c m.particle_map = some nd ∧
        ¬ riverWidth sqrtF g.scale nd m.river_strength <
          m.riverIgnoreableWidth g ∧
        nd.main_river.collides project x y
          (riverWidth sqrtF g.scale nd m.river_strength) = true := by
    unfold DrainageMap.collidesWithRiver
    rw [List.any_eq_true]
    constructor
    · rintro ⟨node, hmem, hpred⟩
      rw [List.mem_filterMap] at hmem
      obtain ⟨c, hc, hsome⟩ := hmem
      by_cases hlt : riverWidth sqrtF g.scale node m.river_strength <
          m.riverIgnoreableWidth g
      · rw [if_pos hlt] at hpred
        exact absurd hpred (by simp)
      · rw [if_neg hlt] at hpred
        exact ⟨c, hc, node, hsome, hlt, hpred⟩
    · rintro ⟨c, hc, nd, hnd, hnl, hcol⟩
      refine ⟨nd, List.mem_filterMap.mpr ⟨c, hc, hnd⟩, ?_⟩
      rw [if_neg hnl]
      exact hcol
  refine ⟨hiff, ?_⟩
  intro hscale hall
  cases hcol : m.collidesWithRiver g sqrtF project inRadius x y with
  | false => rfl
  | true =>
    obtain ⟨c, hc, nd, hnd, hnl, -⟩ := hiff.mp hcol
    have hdiv := hall c hc nd hnd
    exact absurd ((div_lt_iff₀ hscale).mp hdiv) hnl

end DBB
